import Mathlib

/-!
Verification development for the Macys product-details scraper.

The definitions below are a shallow embedding of the JavaScript sources:
  - helpers/formatters.js   (calculatePrices and its helpers)
  - helpers/extractors.js   (field extractors, handleCollectVariants,
                             selectCorrectSizeGroup, extractMacyProductData)
  - helpers/gotoWithRetries.js (gotoMacyWithRetries)
  - index.js                (the per-URL batch loop)

Browser effects are modelled by an abstract page environment: the engine's
control flow is transcribed from the source, while DOM queries, clicks and
text reads are supplied by environment functions over an abstract page-state
type.  Machine floating point is modelled with rational arithmetic; the
concrete price computations verified here are far from rounding ties, so the
printed two-decimal results agree with the JavaScript doubles.
-/

namespace Mecys

/-! ## helpers/formatters.js -/

/-- Digits of a decimal string accumulated into a natural number. -/
def digitsToNat (cs : List Char) : Nat :=
  cs.foldl (fun acc c => acc * 10 + (c.toNat - '0'.toNat)) 0

/-! ### JavaScript string primitives

The JavaScript methods trim, toLowerCase, split and join are modelled
directly over the character list of a string with structural recursion, so
that every concrete computation reduces inside the kernel. -/

def jsWhitespace (c : Char) : Bool :=
  c == ' ' || c == '\t' || c == '\n' || c == '\r'

/-- String.prototype.trim: strip leading and trailing whitespace. -/
def jsTrim (s : String) : String :=
  String.mk ((((s.data.dropWhile jsWhitespace).reverse).dropWhile jsWhitespace).reverse)

/-- String.prototype.toLowerCase on the ASCII labels this scraper handles. -/
def jsToLower (s : String) : String :=
  String.mk (s.data.map Char.toLower)

/-- Loop of String.prototype.split: fuel is the remaining length plus one,
so the zero-fuel branch is never reached. -/
def splitGo (sep : List Char) : Nat → List Char → List Char → List (List Char)
  | 0, rest, acc => [acc.reverse ++ rest]
  | fuel + 1, [], acc => [acc.reverse]
  | fuel + 1, c :: rest, acc =>
    if sep.isPrefixOf (c :: rest) then
      acc.reverse :: splitGo sep fuel ((c :: rest).drop sep.length) []
    else splitGo sep fuel rest (c :: acc)

/-- String.prototype.split with a non-empty separator. -/
def jsSplitOn (s sep : String) : List String :=
  (splitGo sep.data (s.data.length + 1) s.data []).map String.mk

/-- Array.prototype.join. -/
def jsJoin (sep : String) : List String → String
  | [] => ""
  | [x] => x
  | x :: y :: rest => x ++ sep ++ jsJoin sep (y :: rest)

/-- Model of JavaScript parseFloat restricted to strings containing only
digits and dots, which is the shape calculatePrices feeds it after the
replace(/[^0-9.]/g, '') cleanup.  Returns none exactly when parseFloat
would return NaN; otherwise the parsed value is represented exactly as a
scaled natural number: some (m, k) stands for the rational m / 10 ^ k.
The concrete prices verified here are far from decimal rounding ties, so
this exact value prints to the same two decimals as the JavaScript double. -/
def jsParseFloat (s : String) : Option (Nat × Nat) :=
  let cs := s.data
  let intDigits := cs.takeWhile Char.isDigit
  let rest := cs.dropWhile Char.isDigit
  let fracDigits :=
    match rest with
    | '.' :: r => r.takeWhile Char.isDigit
    | _ => []
  if intDigits.isEmpty && fracDigits.isEmpty then none
  else
    some (digitsToNat intDigits * 10 ^ fracDigits.length + digitsToNat fracDigits,
      fracDigits.length)

/-- Model of Number.prototype.toFixed(2) for the nonnegative exact value
m / 10 ^ k: round to the nearest hundredth (ties upward, as toFixed does
for positive numbers) and print with exactly two decimals.  The cent count
is the floor of m / 10 ^ k * 100 + 1 / 2, computed without leaving the
naturals. -/
def toFixed2 (m k : Nat) : String :=
  let cents := (200 * m + 10 ^ k) / (2 * 10 ^ k)
  let whole := cents / 100
  let frac := cents % 100
  toString whole ++ "." ++ (if frac < 10 then "0" ++ toString frac else toString frac)

/-- The replace(/[^0-9.]/g, '') cleanup applied to the displayed price text. -/
def cleanPriceText (s : String) : String :=
  String.mk (s.data.filter (fun c => c.isDigit || c == '.'))

/-- VARIANT_PRICE_RATE from helpers/constants.js is 1.3, represented
exactly as the fraction VARIANT_PRICE_RATE_NUM / VARIANT_PRICE_RATE_DEN. -/
def VARIANT_PRICE_RATE_NUM : Nat := 13

def VARIANT_PRICE_RATE_DEN : Nat := 10

/-- Result record of calculatePrices. -/
structure Prices where
  costPerItem : String
  variantPrice : String
  compareAtPrice : String
deriving DecidableEq, Repr

/-- calculatePrices from helpers/formatters.js: empty input (falsy) and
unparseable input leave all three fields as the empty string; otherwise
costPerItem is the parsed value at two decimals, variantPrice multiplies by
VARIANT_PRICE_RATE (m / 10 ^ k times 13 / 10 is 13 m / 10 ^ (k + 1)), and
compareAtPrice copies costPerItem. -/
def calculatePrices (displayedCostPerItemText : String) : Prices :=
  if displayedCostPerItemText = "" then ⟨"", "", ""⟩
  else
    match jsParseFloat (cleanPriceText displayedCostPerItemText) with
    | none => ⟨"", "", ""⟩
    | some mk =>
      let costPerItem := toFixed2 mk.1 mk.2
      ⟨costPerItem, toFixed2 (VARIANT_PRICE_RATE_NUM * mk.1) (mk.2 + 1), costPerItem⟩

/-! ## Per-field extractors of helpers/extractors.js

Each extractor is a function of the outcome of its page queries: a value of
type Option _ is none exactly when the corresponding selector wait or
evaluation failed (timed out / threw), which the catch blocks translate to
the documented defaults. -/

/-- extractDisplayedCostPerItem: the original/strike price text if its
selector resolved, else the current price text, else the "$0.00" default. -/
def extractDisplayedCostPerItem (strikeText currentText : Option String) : String :=
  match strikeText with
  | some t => jsTrim t
  | none =>
    match currentText with
    | some t => jsTrim t
    | none => "$0.00"

/-- Outcome of the main-image element query: its data-src and src attribute
values (empty string when the attribute is absent, matching el.dataset.src
and el.src coerced through the JavaScript or-chains). -/
structure ImgEl where
  dataSrc : String
  src : String
deriving DecidableEq, Repr

/-- extractMainImage: data-src preferred over src (el.dataset.src ||
el.src || ''); any failure yields the empty string. -/
def extractMainImage (img : Option ImgEl) : String :=
  match img with
  | none => ""
  | some el =>
    if el.dataSrc ≠ "" then el.dataSrc
    else if el.src ≠ "" then el.src
    else ""

/-- extractBreadcrumbs: given the cleaned text of each breadcrumb anchor
(icons already removed, as the in-page evaluation does), drop blanks and
the "home" crumb and join the rest with " > "; failure yields "". -/
def extractBreadcrumbs (anchors : Option (List String)) : String :=
  match anchors with
  | none => ""
  | some texts =>
    jsJoin " > "
      ((texts.map jsTrim).filter
        (fun t => decide (t ≠ "") && decide (jsToLower t ≠ "home")))

/-! ## helpers/gotoWithRetries.js -/

/-- Loop body of gotoMacyWithRetries.  The environment function ok reports
whether attempt i (0-based) succeeds.  On success the result carries the
number of attempts used and the backoff waits performed so far; exhaustion
after the attempt with i = retries carries the full wait list.  The fuel
argument is retries + 1 - i, so the zero-fuel branch is never reached from
the entry point. -/
def gotoGo (ok : Nat → Bool) (retries : Nat) :
    Nat → Nat → List Nat → Except (List Nat) (Nat × List Nat)
  | 0, _, waits => .error waits
  | fuel + 1, i, waits =>
    if ok i then .ok (i + 1, waits)
    else if i = retries then .error waits
    else gotoGo ok retries fuel (i + 1) (waits ++ [3000 * (i + 1)])

/-- gotoMacyWithRetries: attempts i = 0 .. retries, waiting 3000 * (i + 1)
milliseconds after failed attempt i before attempt i + 1, and throws only
when attempt retries also fails. -/
def gotoMacyWithRetries (ok : Nat → Bool) (retries : Nat) :
    Except (List Nat) (Nat × List Nat) :=
  gotoGo ok retries (retries + 1) 0 []

/-! ## index.js batch loop

The per-URL body is abstracted as a process function returning either the
extracted rows or an error; the loop accumulates rows of successful URLs
and records failed URLs (the catch block reports them and continues). -/

def isErr {ε α : Type} (e : Except ε α) : Bool :=
  match e with
  | .error _ => true
  | .ok _ => false

/-- The for-of loop of index.js over the URL list: a URL whose processing
throws contributes no rows, is reported failed, and the loop continues. -/
def mainLoop {α : Type} (process : String → Except String (List α))
    (urls : List String) : List α × List String :=
  urls.foldl
    (fun acc u =>
      match process u with
      | .ok rows => (acc.1 ++ rows, acc.2)
      | .error _ => (acc.1, acc.2 ++ [u]))
    ([], [])

/-! ## Variant model (helpers/extractors.js)

A variant section is one element matched by SELECTORS.VARIANTS.CONTAINER:
an optional title element text and the list of item elements, each with its
visible label and the selected/disabled signals evaluated by
handleCollectVariants.  An element handle obtained from a discovery call is
identified by the discovery generation that produced it, the group title it
was found under, its index in the list of enabled items, and a snapshot of
the item data it pointed at (its label text and state at query time). -/

structure VarItem where
  label : String
  isSelected : Bool
  isDisabled : Bool
deriving DecidableEq, Repr

structure Sect where
  title : Option String
  items : List VarItem
deriving DecidableEq, Repr

structure Handle where
  gen : Nat
  title : String
  idx : Nat
  item : VarItem
deriving DecidableEq, Repr

/-- One value of the anchorsPerVariant object: the enabled item handles of a
group plus the order counter assigned when the group was inserted. -/
structure VGroup where
  items : List Handle
  order : Nat
deriving DecidableEq, Repr

/-- Handles for the enabled items of one section, in page order, indexed by
position within the filtered (non-disabled) list. -/
def mkItems (gen : Nat) (name : String) (items : List VarItem) : List Handle :=
  ((items.filter (fun it => !it.isDisabled)).enum).map
    (fun p => ⟨gen, name, p.1, p.2⟩)

/-- JavaScript object assignment anchorsPerVariant[k] = v: replaces the
value in place when the key exists, otherwise appends the pair. -/
def jsSetG (m : List (String × VGroup)) (k : String) (v : VGroup) :
    List (String × VGroup) :=
  if m.any (fun p => decide (p.1 = k)) then
    m.map (fun p => if p.1 = k then (k, v) else p)
  else m ++ [(k, v)]

/-- JavaScript object lookup anchorsPerVariant[k] as an Option. -/
def jsGetG (m : List (String × VGroup)) (k : String) : Option VGroup :=
  (m.find? (fun p => decide (p.1 = k))).map (fun p => p.2)

/-- Loop body of handleCollectVariants over the variant sections: a section
without a title element is skipped (continue); disabled items are filtered
out; a group is stored only when its trimmed title is non-empty, and the
order counter advances only in that case. -/
def collectGo (gen : Nat) : List Sect → Nat → List (String × VGroup) →
    List (String × VGroup)
  | [], _, acc => acc
  | s :: rest, ord, acc =>
    match s.title with
    | none => collectGo gen rest ord acc
    | some t =>
      let name := jsTrim t
      if name = "" then collectGo gen rest ord acc
      else collectGo gen rest (ord + 1) (jsSetG acc name ⟨mkItems gen name s.items, ord⟩)

/-- handleCollectVariants from helpers/extractors.js, applied to the variant
sections rendered on the current page; gen tags the handles it creates. -/
def handleCollectVariants (gen : Nat) (sects : List Sect) :
    List (String × VGroup) :=
  collectGo gen sects 1 []

/-- Stable insertion by ascending order value, modelling the stable
Array.prototype.sort comparator (a, b) => a[1].order - b[1].order. -/
def insertByOrder (x : String × VGroup) : List (String × VGroup) →
    List (String × VGroup)
  | [] => [x]
  | y :: ys => if x.2.order ≤ y.2.order then x :: y :: ys else y :: insertByOrder x ys

def sortByOrder : List (String × VGroup) → List (String × VGroup)
  | [] => []
  | x :: xs => insertByOrder x (sortByOrder xs)

/-- The master/slave key detection: keys other than "Size Group" in
ascending discovery order. -/
def variantKeysOrdered (m : List (String × VGroup)) : List String :=
  (sortByOrder (m.filter (fun p => decide (p.1 ≠ "Size Group")))).map (fun p => p.1)

/-! ## Traversal engine (extractMacyProductData)

The engine's interactions with the live page are recorded as a trace of
events: discovery calls, clicks on a handle, and non-click accesses of a
handle (label reads and scroll-into-view evaluations).  The page itself is
an abstract transition system: an initial state, the variant sections
rendered in a state, the state transition caused by clicking the idx-th
enabled item of a named group, and the price text / main image / page-level
strings read in a state. -/

inductive Ev where
  | collect (gen : Nat)
  | click (h : Handle)
  | access (h : Handle)
deriving DecidableEq, Repr

structure PageEnv (σ : Type) where
  init : σ
  sections : σ → List Sect
  clickEff : σ → String → Nat → σ
  priceText : σ → String
  image : σ → String
  pageTitle : String
  descriptionHtml : String
  breadcrumbs : String

/-- Running state of one extractMacyProductData call: current page state,
next discovery generation, and the event trace so far. -/
structure St (σ : Type) where
  pg : σ
  gen : Nat
  tr : List Ev

/-- One handleCollectVariants call: the awaited waitForSelector on the
variants container throws when no section exists (the error propagates out
of extractMacyProductData); otherwise the current sections are collected
under a fresh generation. -/
def doCollectE {σ : Type} (env : PageEnv σ) (st : St σ) :
    Except String (List (String × VGroup) × St σ) :=
  if env.sections st.pg = [] then
    .error "waitForSelector timeout on the variants container"
  else
    .ok (handleCollectVariants st.gen (env.sections st.pg),
      ⟨st.pg, st.gen + 1, st.tr ++ [.collect st.gen]⟩)

def doClick {σ : Type} (env : PageEnv σ) (st : St σ) (h : Handle) : St σ :=
  ⟨env.clickEff st.pg h.title h.idx, st.gen, st.tr ++ [.click h]⟩

def doAccess {σ : Type} (st : St σ) (h : Handle) : St σ :=
  ⟨st.pg, st.gen, st.tr ++ [.access h]⟩

/-- waitForImageChangeCheck: scroll the anchor into view (an element
access), click it, then wait for the image to change or time out. -/
def waitForImageChangeCheck {σ : Type} (env : PageEnv σ) (st : St σ)
    (h : Handle) : St σ :=
  doClick env (doAccess st h) h

/-- selectCorrectSizeGroup: nothing to do when the group is absent or
empty; when a size group item is already selected its label is read for the
log; otherwise the first item is clicked. -/
def selectCorrectSizeGroup {σ : Type} (env : PageEnv σ) (st : St σ)
    (sg : Option VGroup) : St σ :=
  match sg with
  | none => st
  | some g =>
    if g.items = [] then st
    else
      match g.items.find? (fun h => h.item.isSelected) with
      | some sel => doAccess st sel
      | none =>
        match g.items.head? with
        | some h1 => doClick env st h1
        | none => st

/-- Loop of the Set-spread deduplication, with the list length as fuel so
that it is structurally recursive; the zero-fuel branch is unreachable
because filtering only shortens the list. -/
def jsSetDedupGo : Nat → List String → List String
  | 0, l => l
  | _, [] => []
  | fuel + 1, a :: as => a :: jsSetDedupGo fuel (as.filter (fun b => decide (b ≠ a)))

/-- The deduplication performed by spreading into a Set: keeps the first
occurrence of each element in order. -/
def jsSetDedup (l : List String) : List String :=
  jsSetDedupGo l.length l

/-- finalProductTags: breadcrumb segments split on " > " plus the extra
tags split on ",", trimmed, blanks dropped, deduplicated in order, joined
with ", ". -/
def computeTags (breadcrumbs extraTags : String) : String :=
  jsJoin ", "
    (jsSetDedup
      (((jsSplitOn breadcrumbs " > ").map jsTrim).filter (fun t => decide (t ≠ "")) ++
        (if extraTags = "" then []
         else ((jsSplitOn extraTags ",").map jsTrim).filter (fun t => decide (t ≠ "")))))

/-- JavaScript object assignment for the string-valued variant-data
objects pushed into allVariantsData. -/
def jsSetS (m : List (String × String)) (k v : String) :
    List (String × String) :=
  if m.any (fun p => decide (p.1 = k)) then
    m.map (fun p => if p.1 = k then (k, v) else p)
  else m ++ [(k, v)]

/-- JavaScript lookup variant?.[key] || "": absent keys and empty values
both give the empty string. -/
def jsGetS (m : List (String × String)) (k : String) : String :=
  match (m.find? (fun p => decide (p.1 = k))).map (fun p => p.2) with
  | none => ""
  | some v => v

/-- One entry of allVariantsData: the computed option keys and values of
the pushed object plus the per-variant price fields and image. -/
structure VData where
  opts : List (String × String)
  variantPrice : String
  compareAtPrice : String
  costPerItem : String
  mainImage : String
deriving DecidableEq, Repr

/-- Body of the slave (secondary group) loop for one slave item: scroll the
container for the first item, log its label, click (with the image-change
wait when the slave group is the color group, updating mainImage), read the
label again, extract the price and push one variant-data entry. -/
def slaveIter {σ : Type} (env : PageEnv σ) (skLower mkLower masterLabel : String)
    (colorSlave : Bool) (j : Nat) (h : Handle)
    (acc : List VData × St σ × String) : List VData × St σ × String :=
  let data := acc.1
  let st := acc.2.1
  let img := acc.2.2
  let st := if j = 0 then doAccess st h else st
  let st := doAccess st h
  let stImg : St σ × String :=
    if colorSlave then
      let st := waitForImageChangeCheck env st h
      (st, env.image st.pg)
    else
      (doClick env st h, img)
  let st := doAccess stImg.1 h
  let img := stImg.2
  let p := calculatePrices (env.priceText st.pg)
  (data ++ [⟨jsSetS (jsSetS [] mkLower masterLabel) skLower h.item.label,
      p.variantPrice, p.compareAtPrice, p.costPerItem, img⟩], st, img)

def slaveLoop {σ : Type} (env : PageEnv σ) (skLower mkLower masterLabel : String)
    (colorSlave : Bool) : List Handle → Nat → (List VData × St σ × String) →
    List VData × St σ × String
  | [], _, acc => acc
  | h :: rest, j, acc =>
    slaveLoop env skLower mkLower masterLabel colorSlave rest (j + 1)
      (slaveIter env skLower mkLower masterLabel colorSlave j h acc)

/-- The "no slave variants" push: one entry carrying only the master
assignment, with an explicit option2 key set to the empty string. -/
def pushMasterOnly {σ : Type} (env : PageEnv σ) (data : List VData) (st : St σ)
    (mkLower masterLabel img : String) : List VData × St σ :=
  let p := calculatePrices (env.priceText st.pg)
  (data ++ [⟨jsSetS (jsSetS [] mkLower masterLabel) "option2" "",
      p.variantPrice, p.compareAtPrice, p.costPerItem, img⟩], st)

/-- The click-or-skip step on the master variant of the current iteration:
already-selected items only have their label logged; otherwise the label is
logged and the item is clicked, through waitForImageChangeCheck when the
master group is the color group. -/
def masterSelect {σ : Type} (env : PageEnv σ) (mk : String) (st : St σ)
    (mh : Handle) : St σ :=
  if mh.item.isSelected then doAccess st mh
  else
    let st := doAccess st mh
    if jsToLower mk = "color" then waitForImageChangeCheck env st mh
    else doClick env st mh

/-- One iteration of the master loop: re-collect variants to obtain fresh
handles, look up the i-th master item (skipping the iteration when it is
gone), select it, re-collect variants again, read the master label from the
pre-click handle, read the main image, then either walk the fresh slave
list or push a master-only entry. -/
def masterIter {σ : Type} (env : PageEnv σ) (mk : String) (sk? : Option String)
    (i : Nat) (acc : List VData × St σ) : Except String (List VData × St σ) := do
  let data := acc.1
  let st := acc.2
  let (cur, st) ← doCollectE env st
  match (jsGetG cur mk).bind (fun g => g.items.get? i) with
  | none => pure (data, st)
  | some mh =>
    let st := masterSelect env mk st mh
    let (cur2, st) ← doCollectE env st
    let st := doAccess st mh
    let masterLabel := mh.item.label
    let img := env.image st.pg
    let mkLower := jsToLower mk
    match sk? with
    | some sk =>
      match jsGetG cur2 sk with
      | some sg =>
        if sg.items.length > 0 then
          let r := slaveLoop env (jsToLower sk) mkLower masterLabel
            (decide (jsToLower sk = "color")) sg.items 0 (data, st, img)
          pure (r.1, r.2.1)
        else
          pure (pushMasterOnly env data st mkLower masterLabel img)
      | none => pure (pushMasterOnly env data st mkLower masterLabel img)
    | none => pure (pushMasterOnly env data st mkLower masterLabel img)

/-- The master loop for i = startIdx .. startIdx + fuel - 1; invoked with
fuel equal to the initially discovered master item count. -/
def masterLoopGo {σ : Type} (env : PageEnv σ) (mk : String) (sk? : Option String) :
    Nat → Nat → (List VData × St σ) → Except String (List VData × St σ)
  | 0, _, acc => pure acc
  | fuel + 1, i, acc => do
    let acc2 ← masterIter env mk sk? i acc
    masterLoopGo env mk sk? fuel (i + 1) acc2

/-- capitalizeFirst from helpers/extractors.js. -/
def capitalizeFirst (s : String) : String :=
  match s.data with
  | [] => ""
  | c :: rest => String.mk (Char.toUpper c :: rest)

/-- The output-row fields the specification speaks about; the remaining
spreadsheet columns are constants or unconstrained by any claim. -/
structure Row where
  title : String
  bodyHtml : String
  tags : String
  originalUrl : String
  option1Name : String
  option1Value : String
  option2Name : String
  option2Value : String
  variantPrice : String
  compareAtPrice : String
  costPerItem : String
  variantImage : String
deriving DecidableEq, Repr

/-- One Shopify row assembled from a variant-data entry; first is true
exactly for the first row of the first chunk (i = 0 and j = 0), the only
row carrying the page-level title, body, tags and original URL. -/
def mkRow (url pageTitle descriptionHtml finalTags : String)
    (mk? sk? : Option String) (first : Bool) (v : VData) : Row :=
  { title := if first then pageTitle else ""
    bodyHtml := if first then descriptionHtml else ""
    tags := if first then finalTags else ""
    originalUrl := if first then url else ""
    option1Name := match mk? with | some k => capitalizeFirst k | none => ""
    option1Value := match mk? with | some k => jsGetS v.opts (jsToLower k) | none => ""
    option2Name := match sk? with | some k => capitalizeFirst k | none => ""
    option2Value := match sk? with | some k => jsGetS v.opts (jsToLower k) | none => ""
    variantPrice := v.variantPrice
    compareAtPrice := v.compareAtPrice
    costPerItem := v.costPerItem
    variantImage := v.mainImage }

/-- The chunked row-emission loops: chunking only affects the per-chunk
handle suffix, so the emitted sequence is one row per variant-data entry in
order, with the page-level fields on the global first row only. -/
def buildRows (url pageTitle descriptionHtml finalTags : String)
    (mk? sk? : Option String) (data : List VData) : List Row :=
  data.enum.map
    (fun p => mkRow url pageTitle descriptionHtml finalTags mk? sk? (decide (p.1 = 0)) p.2)

/-- The entry pushed when no variant group was found: both option keys
present and empty, prices from the currently displayed cost text. -/
def noVariantVData {σ : Type} (env : PageEnv σ) (st : St σ) : VData :=
  let p := calculatePrices (env.priceText st.pg)
  ⟨jsSetS (jsSetS [] "option1" "") "option2" "",
    p.variantPrice, p.compareAtPrice, p.costPerItem, env.image st.pg⟩

/-- The fallback entry pushed when the master loop produced no data at all:
price fields keep the empty commonShopifyRow defaults. -/
def fallbackVData {σ : Type} (env : PageEnv σ) (st : St σ) : VData :=
  ⟨jsSetS (jsSetS [] "option1" "") "option2" "", "", "", "", env.image st.pg⟩

structure RunResult where
  rows : List Row
  trace : List Ev
  masterKey : Option String
  slaveKey : Option String
deriving Repr

/-- extractMacyProductData from helpers/extractors.js: collect variants,
give selectCorrectSizeGroup a chance to click a size-group tile, re-collect,
detect the master and slave keys (ignoring "Size Group"), then either emit
the single no-variant entry or run the master loop (falling back to a
single empty entry when it produced none), and assemble the Shopify rows.
The result also reports the detected keys and the interaction trace for
specification purposes. -/
def extractMacyProductData {σ : Type} (env : PageEnv σ) (url : String)
    (extraTags : String) : Except String RunResult := do
  let finalTags := computeTags env.breadcrumbs extraTags
  let st0 : St σ := ⟨env.init, 0, []⟩
  let (m1, st1) ← doCollectE env st0
  let st2 := selectCorrectSizeGroup env st1 (jsGetG m1 "Size Group")
  let (m2, st3) ← doCollectE env st2
  let keys := variantKeysOrdered m2
  let mk? := keys.get? 0
  let sk? := keys.get? 1
  match mk? with
  | none =>
    let data := [noVariantVData env st3]
    pure ⟨buildRows url env.pageTitle env.descriptionHtml finalTags mk? sk? data,
      st3.tr, mk?, sk?⟩
  | some mk =>
    let m0 := match jsGetG m2 mk with
      | some g => g.items.length
      | none => 0
    let (data, stF) ← masterLoopGo env mk sk? m0 0 ([], st3)
    let data := if data = [] then [fallbackVData env stF] else data
    pure ⟨buildRows url env.pageTitle env.descriptionHtml finalTags mk? sk? data,
      stF.tr, mk?, sk?⟩

/-! ## Theorems about the price pipeline -/

/-- Parsing the empty string fails. -/
theorem jsParseFloat_clean_empty : jsParseFloat (cleanPriceText "") = none := by
  decide

/-- C3 (amended): calculatePrices on "$129.99" with the configured 1.3
multiplier returns variantPrice "168.99"; for every input with no parseable
number, calculatePrices returns the empty string for costPerItem (not the
number 0) and, being a total function, raises no exception. -/
theorem C3_price_calculation :
    (calculatePrices "$129.99").variantPrice = "168.99" ∧
    ∀ s : String, jsParseFloat (cleanPriceText s) = none →
      calculatePrices s = ⟨"", "", ""⟩ := by
  refine ⟨by decide, ?_⟩
  intro s h
  by_cases hs : s = ""
  · simp [calculatePrices, hs]
  · simp [calculatePrices, hs, h]

/-- C3 witness: the parse-failure half applied at the concrete input
"abc". -/
theorem C3_witness :
    jsParseFloat (cleanPriceText "abc") = none ∧
    calculatePrices "abc" = ⟨"", "", ""⟩ :=
  ⟨by decide, C3_price_calculation.2 "abc" (by decide)⟩

/-- C3 counterexample: for the unparseable input "abc" the returned
costPerItem is the empty string, which is neither "0" nor "0.00", refuting
the claim that costPerItem equals 0 in that case. -/
theorem C3_counterexample :
    (calculatePrices "abc").costPerItem = "" ∧
    (calculatePrices "abc").costPerItem ≠ "0" ∧
    (calculatePrices "abc").costPerItem ≠ "0.00" := by
  decide

/-- C10: when a number is parseable, compareAtPrice is exactly costPerItem,
the displayed price at two decimals, with no further multiplier; when no
number is parseable all three fields are the empty string. -/
theorem C10_compareAt_is_cost :
    (∀ (s : String) (m k : Nat), jsParseFloat (cleanPriceText s) = some (m, k) →
      (calculatePrices s).compareAtPrice = (calculatePrices s).costPerItem ∧
      (calculatePrices s).costPerItem = toFixed2 m k) ∧
    (∀ s : String, jsParseFloat (cleanPriceText s) = none →
      (calculatePrices s).costPerItem = "" ∧
      (calculatePrices s).variantPrice = "" ∧
      (calculatePrices s).compareAtPrice = "") := by
  constructor
  · intro s m k h
    by_cases hs : s = ""
    · rw [hs, jsParseFloat_clean_empty] at h
      exact absurd h (by simp)
    · simp [calculatePrices, hs, h]
  · intro s h
    by_cases hs : s = ""
    · simp [calculatePrices, hs]
    · simp [calculatePrices, hs, h]

/-- C10 witness: both halves at concrete inputs "$129.99" and "abc". -/
theorem C10_witness :
    ((calculatePrices "$129.99").compareAtPrice = (calculatePrices "$129.99").costPerItem ∧
      (calculatePrices "$129.99").costPerItem = toFixed2 12999 2) ∧
    ((calculatePrices "abc").costPerItem = "" ∧
      (calculatePrices "abc").variantPrice = "" ∧
      (calculatePrices "abc").compareAtPrice = "") :=
  ⟨C10_compareAt_is_cost.1 "$129.99" 12999 2 (by decide),
   C10_compareAt_is_cost.2 "abc" (by decide)⟩

/-- C9: each failing single-field extraction yields its documented default
value instead of an error: "$0.00" for the displayed price when both the
strike and current price queries fail, and the empty string for the main
image and the breadcrumbs; all three extractors are total functions, so no
per-field failure aborts the page visit. -/
theorem C9_extractor_defaults :
    extractDisplayedCostPerItem none none = "$0.00" ∧
    extractMainImage none = "" ∧
    extractBreadcrumbs none = "" :=
  ⟨rfl, rfl, rfl⟩

/-! ## Theorems about navigation retries and the batch loop -/

lemma gotoGo_error_all_fail (ok : Nat → Bool) (retries : Nat) :
    ∀ (fuel i : Nat) (waits w : List Nat), i + fuel = retries + 1 →
      gotoGo ok retries fuel i waits = .error w →
      ∀ j, i ≤ j → j ≤ retries → ok j = false := by
  intro fuel
  induction fuel with
  | zero =>
    intro i waits w hf _ j hij hjr
    exact absurd hjr (by omega)
  | succ n ih =>
    intro i waits w hf hrun j hij hjr
    cases hoki : ok i with
    | true => simp [gotoGo, hoki] at hrun
    | false =>
      simp only [gotoGo, hoki, Bool.false_eq_true, if_false] at hrun
      rcases Nat.eq_or_lt_of_le hij with hji | hji
      · rw [← hji]
        exact hoki
      · by_cases hir : i = retries
        · exact absurd hjr (by omega)
        · simp only [hir, if_false] at hrun
          exact ih (i + 1) _ w (by omega) hrun j (by omega) hjr

lemma gotoGo_error_waits (ok : Nat → Bool) (retries : Nat) :
    ∀ (fuel i : Nat) (waits : List Nat), i + fuel = retries + 1 →
      (∀ j, i ≤ j → j ≤ retries → ok j = false) →
      gotoGo ok retries fuel i waits =
        .error (waits ++ (List.range' (i + 1) (retries - i)).map (fun j => 3000 * j)) := by
  intro fuel
  induction fuel with
  | zero =>
    intro i waits hf _
    have hi : i = retries + 1 := by omega
    subst hi
    have hz : retries - (retries + 1) = 0 := by omega
    simp [gotoGo, hz]
  | succ n ih =>
    intro i waits hf hfail
    have hir : i ≤ retries := by omega
    have hoki : ok i = false := hfail i le_rfl hir
    by_cases hieq : i = retries
    · subst hieq
      simp [gotoGo, hoki, Nat.sub_self]
    · have hrw : retries - i = (retries - (i + 1)) + 1 := by omega
      simp only [gotoGo, hoki, Bool.false_eq_true, if_false, hieq]
      rw [ih (i + 1) _ (by omega) (fun j hj hjr => hfail j (by omega) hjr)]
      rw [hrw, List.range'_succ, List.map_cons, List.append_assoc]
      rfl

lemma gotoGo_first_success (ok : Nat → Bool) (retries : Nat) :
    ∀ (fuel i : Nat) (waits : List Nat) (it : Nat), i + fuel = retries + 1 →
      i ≤ it → it ≤ retries → ok it = true →
      (∀ j, i ≤ j → j < it → ok j = false) →
      gotoGo ok retries fuel i waits =
        .ok (it + 1, waits ++ (List.range' (i + 1) (it - i)).map (fun j => 3000 * j)) := by
  intro fuel
  induction fuel with
  | zero =>
    intro i waits it hf hi hit _ _
    exact absurd hit (by omega)
  | succ n ih =>
    intro i waits it hf hi hit hok hfail
    rcases Nat.eq_or_lt_of_le hi with hii | hii
    · rw [← hii] at hok
      simp [gotoGo, hok, ← hii, Nat.sub_self]
    · have hoki : ok i = false := hfail i le_rfl hii
      have hieq : i ≠ retries := by omega
      simp only [gotoGo, hoki, Bool.false_eq_true, if_false, hieq]
      rw [ih (i + 1) _ it (by omega) (by omega) hit hok
        (fun j hj hjt => hfail j (by omega) hjt)]
      have hrw : it - i = (it - (i + 1)) + 1 := by omega
      rw [hrw, List.range'_succ, List.map_cons, List.append_assoc]
      rfl

lemma range'_one_eq_range_map (n : Nat) :
    (List.range' 1 n).map (fun j => 3000 * j) =
      (List.range n).map (fun j => 3000 * (j + 1)) := by
  rw [List.range'_eq_map_range, List.map_map]
  refine List.map_congr_left (fun a _ => ?_)
  simp [Nat.add_comm 1 a]

lemma mainLoop_go {α : Type} (process : String → Except String (List α)) :
    ∀ (urls : List String) (acc : List α × List String),
      urls.foldl
        (fun acc u =>
          match process u with
          | .ok rows => (acc.1 ++ rows, acc.2)
          | .error _ => (acc.1, acc.2 ++ [u])) acc =
      (acc.1 ++ urls.flatMap (fun u => match process u with | .ok r => r | .error _ => []),
       acc.2 ++ urls.filter (fun u => isErr (process u))) := by
  intro urls
  induction urls with
  | nil => intro acc; simp
  | cons u rest ih =>
    intro acc
    cases hpu : process u with
    | ok r =>
      simp only [List.foldl_cons, hpu, ih, List.flatMap_cons, List.filter_cons, isErr, hpu]
      simp [List.append_assoc]
    | error e =>
      simp only [List.foldl_cons, hpu, ih, List.flatMap_cons, List.filter_cons, isErr, hpu]
      simp [List.append_assoc]

/-- C8: gotoMacyWithRetries throws only when every one of the retries + 1
attempts has failed, with the full increasing backoff sequence performed
between attempts; it succeeds at the first successful attempt; and the
batch loop keeps rows of successful URLs only, reports every failing URL,
and continues past failures to the end of the list. -/
theorem C8_navigation_retries_and_batch :
    (∀ (ok : Nat → Bool) (retries : Nat) (w : List Nat),
      gotoMacyWithRetries ok retries = .error w →
      (∀ j, j ≤ retries → ok j = false) ∧
      w = (List.range retries).map (fun j => 3000 * (j + 1)) ∧
      w.Pairwise (· < ·)) ∧
    (∀ (ok : Nat → Bool) (retries it : Nat),
      it ≤ retries → ok it = true → (∀ j, j < it → ok j = false) →
      gotoMacyWithRetries ok retries =
        .ok (it + 1, (List.range it).map (fun j => 3000 * (j + 1)))) ∧
    (∀ (α : Type) (process : String → Except String (List α)) (urls : List String),
      mainLoop process urls =
        (urls.flatMap (fun u => match process u with | .ok r => r | .error _ => []),
         urls.filter (fun u => isErr (process u)))) := by
  refine ⟨?_, ?_, ?_⟩
  · intro ok retries w hrun
    have hfail : ∀ j, j ≤ retries → ok j = false := by
      intro j hj
      exact gotoGo_error_all_fail ok retries (retries + 1) 0 [] w (by omega) hrun j
        (Nat.zero_le j) hj
    have hw : gotoMacyWithRetries ok retries =
        .error ([] ++ (List.range' 1 (retries - 0)).map (fun j => 3000 * j)) :=
      gotoGo_error_waits ok retries (retries + 1) 0 [] (by omega)
        (fun j _ hjr => hfail j hjr)
    rw [hrun] at hw
    have hw2 : w = (List.range retries).map (fun j => 3000 * (j + 1)) := by
      have := Except.error.inj hw
      rw [this]
      simpa using range'_one_eq_range_map retries
    refine ⟨hfail, hw2, ?_⟩
    rw [hw2]
    have hmono : ∀ a b : Nat, a < b → 3000 * (a + 1) < 3000 * (b + 1) := by
      intro a b hab
      omega
    exact List.Pairwise.map _ hmono (List.pairwise_lt_range retries)
  · intro ok retries it hit hok hfail
    have := gotoGo_first_success ok retries (retries + 1) 0 [] it (by omega)
      (Nat.zero_le it) hit hok (fun j _ hjt => hfail j hjt)
    rw [gotoMacyWithRetries, this]
    simpa using congrArg (fun l => (Except.ok (it + 1, l) : Except (List Nat) (Nat × List Nat)))
      (range'_one_eq_range_map it)
  · intro α process urls
    rw [mainLoop, mainLoop_go]
    simp

/-- C8 witness: with attempts failing until the third try, navigation
succeeds on attempt 3 after backoffs 3000 and 6000; a batch with one
failing URL keeps the other rows and reports the failure. -/
theorem C8_witness :
    gotoMacyWithRetries (fun i => decide (i = 2)) 3 =
      .ok (2 + 1, (List.range 2).map (fun j => 3000 * (j + 1))) ∧
    mainLoop (fun u => if u = "bad" then .error "nav" else .ok [u.length]) ["a", "bad", "cc"] =
      (["a", "bad", "cc"].flatMap
        (fun u => match (if u = "bad" then .error "nav" else .ok [u.length] : Except String (List Nat)) with
          | .ok r => r | .error _ => []),
       ["a", "bad", "cc"].filter
        (fun u => isErr (if u = "bad" then .error "nav" else .ok [u.length] : Except String (List Nat)))) :=
  ⟨C8_navigation_retries_and_batch.2.1 (fun i => decide (i = 2)) 3 2 (by decide) (by decide)
      (by decide),
   C8_navigation_retries_and_batch.2.2 Nat (fun u => if u = "bad" then .error "nav" else .ok [u.length])
      ["a", "bad", "cc"]⟩

/-! ## Basic lemmas about the JavaScript object model -/

lemma jsSetS_nil (k v : String) : jsSetS [] k v = [(k, v)] := by
  simp [jsSetS]

lemma jsSetS_singleton_ne (k1 v1 k2 v2 : String) (h : k1 ≠ k2) :
    jsSetS [(k1, v1)] k2 v2 = [(k1, v1), (k2, v2)] := by
  simp [jsSetS, h]

lemma jsGetS_cons_self (k v : String) (rest : List (String × String)) :
    jsGetS ((k, v) :: rest) k = v := by
  simp [jsGetS, List.find?]

lemma jsGetS_cons_ne (k1 v1 k2 : String) (rest : List (String × String))
    (h : k1 ≠ k2) : jsGetS ((k1, v1) :: rest) k2 = jsGetS rest k2 := by
  simp [jsGetS, List.find?, h]

lemma slave_opts_proj (mkL skL ml sl : String) (h : mkL ≠ skL) :
    jsGetS (jsSetS (jsSetS [] mkL ml) skL sl) mkL = ml ∧
    jsGetS (jsSetS (jsSetS [] mkL ml) skL sl) skL = sl := by
  rw [jsSetS_nil, jsSetS_singleton_ne _ _ _ _ h]
  exact ⟨jsGetS_cons_self _ _ _,
    by rw [jsGetS_cons_ne _ _ _ _ h, jsGetS_cons_self]⟩

lemma mem_jsSetG {m : List (String × VGroup)} {k : String} {v : VGroup}
    {p : String × VGroup} (hp : p ∈ jsSetG m k v) : p ∈ m ∨ p = (k, v) := by
  unfold jsSetG at hp
  by_cases hc : m.any (fun q => decide (q.1 = k)) = true
  · rw [if_pos hc] at hp
    rcases List.mem_map.mp hp with ⟨q, hq, hpq⟩
    by_cases hqk : q.1 = k
    · right
      rw [← hpq, if_pos hqk]
    · left
      rw [← hpq, if_neg hqk]
      exact hq
  · rw [if_neg hc] at hp
    rcases List.mem_append.mp hp with h | h
    · exact Or.inl h
    · exact Or.inr (List.mem_singleton.mp h)

/-- Invariant of the discovery result: every stored group has a non-empty
name, and every handle in it carries the group name as its title, the
discovery generation, and a non-disabled item snapshot. -/
lemma collectGo_inv (gen : Nat) :
    ∀ (sects : List Sect) (ord : Nat) (acc : List (String × VGroup)),
      (∀ p ∈ acc, p.1 ≠ "" ∧ ∀ h ∈ p.2.items,
        h.title = p.1 ∧ h.gen = gen ∧ h.item.isDisabled = false) →
      ∀ p ∈ collectGo gen sects ord acc, p.1 ≠ "" ∧ ∀ h ∈ p.2.items,
        h.title = p.1 ∧ h.gen = gen ∧ h.item.isDisabled = false := by
  intro sects
  induction sects with
  | nil => intro ord acc hacc p hp; exact hacc p hp
  | cons s rest ih =>
    intro ord acc hacc p hp
    match hs : s.title with
    | none =>
      rw [collectGo] at hp
      simp only [hs] at hp
      exact ih ord acc hacc p hp
    | some t =>
      rw [collectGo] at hp
      simp only [hs] at hp
      by_cases ht : jsTrim t = ""
      · rw [if_pos ht] at hp
        exact ih ord acc hacc p hp
      · rw [if_neg ht] at hp
        refine ih (ord + 1) _ ?_ p hp
        intro q hq
        rcases mem_jsSetG hq with hq2 | hq2
        · exact hacc q hq2
        · subst hq2
          refine ⟨ht, ?_⟩
          intro h hh
          rcases List.mem_map.mp hh with ⟨pr, hpr, hhpr⟩
          have hsnd : pr.2 ∈ (s.items.filter (fun it => !it.isDisabled)) := by
            have := List.mem_map_of_mem Prod.snd hpr
            rwa [List.enum_map_snd] at this
          have hdis := (List.mem_filter.mp hsnd).2
          constructor
          · rw [← hhpr]
          constructor
          · rw [← hhpr]
          · rw [← hhpr]
            simpa using hdis

lemma handleCollectVariants_inv {gen : Nat} {sects : List Sect}
    {p : String × VGroup} (hp : p ∈ handleCollectVariants gen sects) :
    p.1 ≠ "" ∧ ∀ h ∈ p.2.items,
      h.title = p.1 ∧ h.gen = gen ∧ h.item.isDisabled = false :=
  collectGo_inv gen sects 1 [] (by intro q hq; exact absurd hq (List.not_mem_nil q)) p hp

lemma jsGetG_inv {m : List (String × VGroup)} {k : String} {g : VGroup}
    (hg : jsGetG m k = some g) : (k, g) ∈ m := by
  unfold jsGetG at hg
  rcases Option.map_eq_some'.mp hg with ⟨p, hp, hpg⟩
  have hmem := List.mem_of_find?_eq_some hp
  have hk := List.find?_some hp
  have hk2 : p.1 = k := of_decide_eq_true hk
  have : p = (k, g) := by
    cases p
    simp only at hk2 hpg
    rw [hk2, hpg]
  rwa [this] at hmem

/-! ## Key distinctness of the discovered groups -/

lemma nodup_keys_jsSetG {m : List (String × VGroup)} {k : String} {v : VGroup}
    (hm : (m.map Prod.fst).Nodup) : ((jsSetG m k v).map Prod.fst).Nodup := by
  unfold jsSetG
  by_cases hc : m.any (fun q => decide (q.1 = k)) = true
  · rw [if_pos hc]
    have heq : (m.map (fun p => if p.1 = k then (k, v) else p)).map Prod.fst =
        m.map Prod.fst := by
      rw [List.map_map]
      refine List.map_congr_left (fun p _ => ?_)
      by_cases hpk : p.1 = k
      · simp [hpk]
      · simp [hpk]
    rw [heq]
    exact hm
  · rw [if_neg hc]
    rw [List.map_append]
    simp only [List.map_cons, List.map_nil]
    rw [List.nodup_append]
    refine ⟨hm, List.nodup_singleton k, ?_⟩
    intro a ha hak
    rcases List.mem_map.mp ha with ⟨p, hp, hpa⟩
    have hak2 : a = k := List.mem_singleton.mp hak
    have : m.any (fun q => decide (q.1 = k)) = true := by
      rw [List.any_eq_true]
      exact ⟨p, hp, by rw [hpa, hak2]; simp⟩
    exact hc this

lemma collectGo_nodup_keys (gen : Nat) :
    ∀ (sects : List Sect) (ord : Nat) (acc : List (String × VGroup)),
      ((acc.map Prod.fst).Nodup) →
      ((collectGo gen sects ord acc).map Prod.fst).Nodup := by
  intro sects
  induction sects with
  | nil => intro ord acc h; exact h
  | cons s rest ih =>
    intro ord acc h
    match hs : s.title with
    | none =>
      rw [collectGo]
      simp only [hs]
      exact ih ord acc h
    | some t =>
      rw [collectGo]
      simp only [hs]
      by_cases ht : jsTrim t = ""
      · rw [if_pos ht]
        exact ih ord acc h
      · rw [if_neg ht]
        exact ih (ord + 1) _ (nodup_keys_jsSetG h)

lemma insertByOrder_perm (x : String × VGroup) :
    ∀ l : List (String × VGroup), (insertByOrder x l).Perm (x :: l) := by
  intro l
  induction l with
  | nil => exact List.Perm.refl _
  | cons y ys ih =>
    rw [insertByOrder]
    by_cases hc : x.2.order ≤ y.2.order
    · rw [if_pos hc]
    · rw [if_neg hc]
      exact List.Perm.trans (List.Perm.cons y ih) (List.Perm.swap x y ys)

lemma sortByOrder_perm : ∀ l : List (String × VGroup), (sortByOrder l).Perm l := by
  intro l
  induction l with
  | nil => exact List.Perm.refl _
  | cons x xs ih =>
    rw [sortByOrder]
    exact List.Perm.trans (insertByOrder_perm x (sortByOrder xs)) (List.Perm.cons x ih)

/-- The detected variant keys contain no duplicates. -/
lemma variantKeysOrdered_nodup (m : List (String × VGroup))
    (hm : (m.map Prod.fst).Nodup) : (variantKeysOrdered m).Nodup := by
  unfold variantKeysOrdered
  have hfil : ((m.filter (fun p => decide (p.1 ≠ "Size Group"))).map Prod.fst).Nodup :=
    ((List.filter_sublist m).map Prod.fst).nodup hm
  have hperm := (sortByOrder_perm (m.filter (fun p => decide (p.1 ≠ "Size Group")))).map Prod.fst
  exact hperm.nodup_iff.mpr hfil

lemma handleCollectVariants_nodup_keys (gen : Nat) (sects : List Sect) :
    ((handleCollectVariants gen sects).map Prod.fst).Nodup :=
  collectGo_nodup_keys gen sects 1 [] (by simp)

lemma nodup_get?_ne {l : List String} (hl : l.Nodup) {a b : String}
    (ha : l.get? 0 = some a) (hb : l.get? 1 = some b) : a ≠ b := by
  match l, hl, ha, hb with
  | x :: y :: rest, hl, ha, hb =>
    have hax : x = a := by simpa using ha
    have hby : y = b := by simpa using hb
    subst hax
    subst hby
    have hninx := (List.nodup_cons.mp hl).1
    intro hab
    exact hninx (hab ▸ List.mem_cons_self y rest)

/-- Keys returned by variantKeysOrdered avoid "Size Group". -/
lemma variantKeysOrdered_ne_sizeGroup {m : List (String × VGroup)} {k : String}
    (hk : k ∈ variantKeysOrdered m) : k ≠ "Size Group" := by
  unfold variantKeysOrdered at hk
  rcases List.mem_map.mp hk with ⟨p, hp, hpk⟩
  have hp2 := (sortByOrder_perm _).mem_iff.mp hp
  have := (List.mem_filter.mp hp2).2
  rw [← hpk]
  exact of_decide_eq_true this

/-! ## Lemmas about row assembly -/

lemma buildRows_length (url a b c : String) (mk? sk? : Option String)
    (data : List VData) :
    (buildRows url a b c mk? sk? data).length = data.length := by
  unfold buildRows
  rw [List.length_map, List.enum_length]

lemma enum_map_snd_comp {α β : Type} (l : List α) (f : α → β) :
    l.enum.map (fun p => f p.2) = l.map f := by
  have : (fun p : Nat × α => f p.2) = f ∘ Prod.snd := rfl
  rw [this, ← List.map_map, List.enum_map_snd]

lemma buildRows_map_pair (url a b c : String) (mk sk : String)
    (data : List VData) :
    (buildRows url a b c (some mk) (some sk) data).map
        (fun r => (r.option1Value, r.option2Value)) =
      data.map (fun v => (jsGetS v.opts (jsToLower mk), jsGetS v.opts (jsToLower sk))) := by
  unfold buildRows
  rw [List.map_map]
  have hfun : ((fun r => (r.option1Value, r.option2Value)) ∘
      (fun p : Nat × VData =>
        mkRow url a b c (some mk) (some sk) (decide (p.1 = 0)) p.2)) =
      fun p : Nat × VData =>
        (jsGetS p.2.opts (jsToLower mk), jsGetS p.2.opts (jsToLower sk)) := rfl
  rw [hfun]
  exact enum_map_snd_comp data
    (fun v => (jsGetS v.opts (jsToLower mk), jsGetS v.opts (jsToLower sk)))

lemma buildRows_get?_zero (url a b c : String) (mk? sk? : Option String)
    (v : VData) (rest : List VData) :
    (buildRows url a b c mk? sk? (v :: rest)).get? 0 =
      some (mkRow url a b c mk? sk? true v) := by
  unfold buildRows
  rw [List.enum_cons]
  rfl

lemma buildRows_get?_of_ne_zero (url a b c : String) (mk? sk? : Option String)
    (data : List VData) (k : Nat) (hk : k ≠ 0) :
    (buildRows url a b c mk? sk? data).get? k =
      (data.get? k).map (mkRow url a b c mk? sk? false) := by
  unfold buildRows
  rw [List.get?_map, List.get?_enum]
  cases hd : data.get? k with
  | none => rfl
  | some v =>
    simp only [Option.map_some']
    have : decide (k = 0) = false := by simp [hk]
    rw [this]

/-! ## Shape of a successful extractMacyProductData run -/

lemma run_shape {σ : Type} (env : PageEnv σ) (url extraTags : String)
    (res : RunResult) (h : extractMacyProductData env url extraTags = .ok res) :
    ∃ data : List VData, data ≠ [] ∧
      res.rows = buildRows url env.pageTitle env.descriptionHtml
        (computeTags env.breadcrumbs extraTags) res.masterKey res.slaveKey data := by
  rw [extractMacyProductData] at h
  simp only [bind, Except.bind] at h
  cases h1 : doCollectE env ⟨env.init, 0, []⟩ with
  | error e => rw [h1] at h; simp at h
  | ok p1 =>
    obtain ⟨m1, st1⟩ := p1
    rw [h1] at h
    simp only at h
    cases h2 : doCollectE env (selectCorrectSizeGroup env st1 (jsGetG m1 "Size Group")) with
    | error e => rw [h2] at h; simp at h
    | ok p2 =>
      obtain ⟨m2, st3⟩ := p2
      rw [h2] at h
      simp only at h
      cases hmk : (variantKeysOrdered m2).get? 0 with
      | none =>
        rw [hmk] at h
        simp only [pure, Except.pure, Except.ok.injEq] at h
        refine ⟨[noVariantVData env st3], by simp, ?_⟩
        rw [← h]
      | some mk =>
        rw [hmk] at h
        simp only at h
        cases h3 : masterLoopGo env mk ((variantKeysOrdered m2).get? 1)
            (match jsGetG m2 mk with
              | some g => g.items.length
              | none => 0) 0 ([], st3) with
        | error e => rw [h3] at h; simp at h
        | ok p3 =>
          obtain ⟨data, stF⟩ := p3
          rw [h3] at h
          simp only [pure, Except.pure, Except.ok.injEq] at h
          by_cases hd : data = []
          · refine ⟨[fallbackVData env stF], by simp, ?_⟩
            rw [← h]
            simp [hd]
          · refine ⟨data, hd, ?_⟩
            rw [← h]
            simp [hd]

/-- C2: when a page visit emits its rows, the first emitted row carries the
page-level Title, Body (HTML), Tags and original_product_url values, which
are non-empty whenever the page yielded non-empty values, and every later
row has the empty string in all four of those fields. -/
theorem C2_first_row_invariants {σ : Type} (env : PageEnv σ) (url extraTags : String)
    (res : RunResult) (h : extractMacyProductData env url extraTags = .ok res)
    (htitle : env.pageTitle ≠ "") (hbody : env.descriptionHtml ≠ "")
    (htags : computeTags env.breadcrumbs extraTags ≠ "") (hurl : url ≠ "") :
    (∃ r0, res.rows.get? 0 = some r0 ∧
      r0.title = env.pageTitle ∧ r0.bodyHtml = env.descriptionHtml ∧
      r0.tags = computeTags env.breadcrumbs extraTags ∧ r0.originalUrl = url ∧
      r0.title ≠ "" ∧ r0.bodyHtml ≠ "" ∧ r0.tags ≠ "" ∧ r0.originalUrl ≠ "") ∧
    (∀ k r, res.rows.get? k = some r → k ≠ 0 →
      r.title = "" ∧ r.bodyHtml = "" ∧ r.tags = "" ∧ r.originalUrl = "") := by
  rcases run_shape env url extraTags res h with ⟨data, hdata, hrows⟩
  constructor
  · match data, hdata with
    | v :: rest, _ =>
      refine ⟨mkRow url env.pageTitle env.descriptionHtml
        (computeTags env.breadcrumbs extraTags) res.masterKey res.slaveKey true v,
        ?_, rfl, rfl, rfl, rfl, htitle, hbody, htags, hurl⟩
      rw [hrows]
      exact buildRows_get?_zero _ _ _ _ _ _ _ _
  · intro k r hkr hk
    rw [hrows, buildRows_get?_of_ne_zero _ _ _ _ _ _ _ k hk] at hkr
    rcases Option.map_eq_some'.mp hkr with ⟨v, _, hv⟩
    rw [← hv]
    exact ⟨rfl, rfl, rfl, rfl⟩

/-! ## C4: pages with zero discovered variant groups -/

/-- C4: when variant group discovery returns zero groups (the sections it
scanned produced no titled group), extractMacyProductData emits exactly one
row, and that row has both option value columns blank. -/
theorem C4_zero_groups_single_row {σ : Type} (env : PageEnv σ) (url extraTags : String)
    (h1 : ∀ s, env.sections s ≠ [])
    (h2 : ∀ (gen : Nat) (s : σ), handleCollectVariants gen (env.sections s) = []) :
    ∃ res, extractMacyProductData env url extraTags = .ok res ∧
      res.rows.length = 1 ∧
      ∀ r ∈ res.rows, r.option1Value = "" ∧ r.option2Value = "" := by
  have e1 : doCollectE env ⟨env.init, 0, []⟩ =
      .ok ([], ⟨env.init, 1, [Ev.collect 0]⟩) := by
    rw [doCollectE, if_neg (h1 env.init), h2]
    rfl
  have e15 : selectCorrectSizeGroup env ⟨env.init, 1, [Ev.collect 0]⟩
      (jsGetG ([] : List (String × VGroup)) "Size Group") =
      ⟨env.init, 1, [Ev.collect 0]⟩ := rfl
  have e2 : doCollectE env ⟨env.init, 1, [Ev.collect 0]⟩ =
      .ok ([], ⟨env.init, 2, [Ev.collect 0, Ev.collect 1]⟩) := by
    rw [doCollectE, if_neg (h1 env.init), h2]
    rfl
  refine ⟨⟨buildRows url env.pageTitle env.descriptionHtml
      (computeTags env.breadcrumbs extraTags) none none
      [noVariantVData env ⟨env.init, 2, [Ev.collect 0, Ev.collect 1]⟩],
      [Ev.collect 0, Ev.collect 1], none, none⟩, ?_, rfl, ?_⟩
  · rw [extractMacyProductData]
    simp only [bind, Except.bind]
    rw [e1]
    simp only
    rw [e15, e2]
    rfl
  · intro r hr
    have hr2 : r = mkRow url env.pageTitle env.descriptionHtml
        (computeTags env.breadcrumbs extraTags) none none true
        (noVariantVData env ⟨env.init, 2, [Ev.collect 0, Ev.collect 1]⟩) := by
      simpa [buildRows] using hr
    rw [hr2]
    exact ⟨rfl, rfl⟩

/-- A concrete one-section page whose only variant section has no title
element, so discovery returns zero groups. -/
def c4env : PageEnv Unit :=
  { init := ()
    sections := fun _ => [⟨none, [⟨"A", false, false⟩]⟩]
    clickEff := fun _ _ _ => ()
    priceText := fun _ => ""
    image := fun _ => ""
    pageTitle := "T"
    descriptionHtml := "D"
    breadcrumbs := "a > b" }

/-- C4 witness: the zero-group theorem applied to the concrete page. -/
theorem C4_witness :
    (extractMacyProductData c4env "u" "").toOption.map (fun res =>
      (res.rows.length,
       decide (∀ r ∈ res.rows, r.option1Value = "" ∧ r.option2Value = ""))) =
      some (1, true) := by
  obtain ⟨res, hrun, hlen, hblank⟩ := C4_zero_groups_single_row c4env "u" ""
    (fun _ => List.cons_ne_nil _ _) (fun _ _ => rfl)
  rw [hrun]
  simp only [Except.toOption, Option.map_some']
  rw [hlen, decide_eq_true hblank]

/-! ## C2 witness -/

/-- A concrete page with two fully enabled variant groups and non-empty
page-level fields. -/
def c2env : PageEnv Unit :=
  { init := ()
    sections := fun _ =>
      [⟨some "Color", [⟨"Black", false, false⟩, ⟨"White", false, false⟩]⟩,
       ⟨some "Size", [⟨"7", false, false⟩, ⟨"8", false, false⟩]⟩]
    clickEff := fun _ _ _ => ()
    priceText := fun _ => ""
    image := fun _ => "img"
    pageTitle := "T"
    descriptionHtml := "D"
    breadcrumbs := "a > b" }

/-- C2 witness: on the concrete two-group page the first emitted row
carries non-empty Title, Body, Tags and original URL values. -/
theorem C2_witness :
    (extractMacyProductData c2env "u" "t2").toOption.map (fun res =>
      (res.rows.get? 0).map (fun r =>
        decide (r.title ≠ "") && decide (r.bodyHtml ≠ "") &&
        decide (r.tags ≠ "") && decide (r.originalUrl ≠ ""))) =
      some (some true) := by
  have hok : (extractMacyProductData c2env "u" "t2").isOk = true := by decide
  cases hrun : extractMacyProductData c2env "u" "t2" with
  | error e =>
    rw [hrun] at hok
    simp [Except.isOk, Except.toBool] at hok
  | ok res =>
    obtain ⟨⟨r0, hget, _, _, _, _, ht, hb, htg, hu⟩, _⟩ :=
      C2_first_row_invariants c2env "u" "t2" res hrun (by decide) (by decide)
        (by decide) (by decide)
    simp only [Except.toOption, Option.map_some']
    rw [hget]
    simp only [Option.map_some']
    rw [decide_eq_true ht, decide_eq_true hb, decide_eq_true htg, decide_eq_true hu]
    rfl

/-! ## C7: variant sections without a label -/

/-- C7 counterexample: a page whose single variant section has no title
element yields an empty discovery result: the group receives no positional
fallback name such as "Color" and is invisible to the traversal, and on
such a page extractMacyProductData emits the single no-variant row with no
master key instead of traversing the unlabeled group. -/
theorem C7_counterexample :
    handleCollectVariants 0 [⟨none, [⟨"A", false, false⟩]⟩] = [] ∧
    (extractMacyProductData c4env "u" "").toOption.map (fun res =>
      (res.masterKey, res.rows.length)) = some (none, 1) := by
  exact ⟨rfl, by decide⟩

lemma collectGo_filter_titled (gen : Nat) :
    ∀ (sects : List Sect) (ord : Nat) (acc : List (String × VGroup)),
      collectGo gen sects ord acc =
        collectGo gen (sects.filter (fun s =>
          match s.title with
          | some t => decide (jsTrim t ≠ "")
          | none => false)) ord acc := by
  intro sects
  induction sects with
  | nil => intro ord acc; rfl
  | cons s rest ih =>
    intro ord acc
    match hs : s.title with
    | none =>
      have hd : (fun s : Sect =>
          match s.title with
          | some t => decide (jsTrim t ≠ "")
          | none => false) s = false := by
        simp only [hs]
      rw [collectGo]
      simp only [hs]
      simp only [List.filter_cons, hd, Bool.false_eq_true, if_false]
      exact ih ord acc
    | some t =>
      rw [collectGo]
      simp only [hs]
      by_cases ht : jsTrim t = ""
      · have hd : (fun s : Sect =>
            match s.title with
            | some t => decide (jsTrim t ≠ "")
            | none => false) s = false := by
          simp only [hs, ht]
          decide
        rw [if_pos ht]
        simp only [List.filter_cons, hd, Bool.false_eq_true, if_false]
        exact ih ord acc
      · have hd : (fun s : Sect =>
            match s.title with
            | some t => decide (jsTrim t ≠ "")
            | none => false) s = true := by
          simp only [hs]
          simpa using ht
        rw [if_neg ht]
        simp only [List.filter_cons, hd, if_true]
        rw [collectGo]
        simp only [hs]
        rw [if_neg ht]
        exact ih (ord + 1) _

/-- C7 (amended): variant sections whose label element is absent or whose
trimmed label is empty are skipped entirely by discovery: the result is the
same as if those sections were not on the page, no fallback name is
assigned, and every discovered group keeps a non-empty name. -/
theorem C7_unlabeled_sections_skipped :
    (∀ (gen : Nat) (sects : List Sect),
      handleCollectVariants gen sects =
        handleCollectVariants gen (sects.filter (fun s =>
          match s.title with
          | some t => decide (jsTrim t ≠ "")
          | none => false))) ∧
    (∀ (gen : Nat) (sects : List Sect) (p : String × VGroup),
      p ∈ handleCollectVariants gen sects → p.1 ≠ "") :=
  ⟨fun gen sects => collectGo_filter_titled gen sects 1 [],
   fun _ _ p hp => (handleCollectVariants_inv hp).1⟩

/-- C7 witness: the skip equality on a concrete section list containing an
unlabeled section, and the non-empty-name consequence for the one group it
produces. -/
theorem C7_witness :
    (handleCollectVariants 0
        [⟨none, [⟨"A", false, false⟩]⟩, ⟨some "Color", [⟨"B", false, false⟩]⟩] =
      handleCollectVariants 0
        ([⟨none, [⟨"A", false, false⟩]⟩, ⟨some "Color", [⟨"B", false, false⟩]⟩].filter
          (fun s =>
            match s.title with
            | some t => decide (jsTrim t ≠ "")
            | none => false))) ∧
    ("Color" : String) ≠ "" :=
  ⟨C7_unlabeled_sections_skipped.1 0 _,
   C7_unlabeled_sections_skipped.2 0
     [⟨none, [⟨"A", false, false⟩]⟩, ⟨some "Color", [⟨"B", false, false⟩]⟩]
     ("Color", ⟨[⟨0, "Color", 0, ⟨"B", false, false⟩⟩], 1⟩) (by decide)⟩

/-! ## C5 counterexample: disabled items are dropped from discovery -/

/-- C5 counterexample: on a section with one enabled and one disabled item,
handleCollectVariants returns only the enabled item; the disabled item does
not appear in the discovery result at all, refuting the claim that it is
still reported (marked disabled) for completeness. -/
theorem C5_counterexample :
    (⟨"B", false, true⟩ : VarItem).isDisabled = true ∧
    handleCollectVariants 0 [⟨some "Color", [⟨"A", false, false⟩, ⟨"B", false, true⟩]⟩] =
      [("Color", ⟨[⟨0, "Color", 0, ⟨"A", false, false⟩⟩], 1⟩)] ∧
    (handleCollectVariants 0
        [⟨some "Color", [⟨"A", false, false⟩, ⟨"B", false, true⟩]⟩]).all
      (fun p => p.2.items.all (fun h => decide (h.item.label ≠ "B"))) = true := by
  refine ⟨rfl, by rfl, by decide⟩

/-! ## Click-safety of the traversal: only enabled handles are clicked -/

def clickHandlesOK (tr : List Ev) : Prop :=
  ∀ h : Handle, Ev.click h ∈ tr → h.item.isDisabled = false

lemma clickOK_nil : clickHandlesOK [] := by
  intro h hm
  exact absurd hm (List.not_mem_nil _)

lemma clickOK_snoc {tr : List Ev} {e : Ev} (h1 : clickHandlesOK tr)
    (h2 : ∀ h : Handle, e = Ev.click h → h.item.isDisabled = false) :
    clickHandlesOK (tr ++ [e]) := by
  intro h hm
  rcases List.mem_append.mp hm with hm | hm
  · exact h1 h hm
  · exact h2 h (List.mem_singleton.mp hm).symm

lemma clickOK_doAccess {σ : Type} {st : St σ} (h1 : clickHandlesOK st.tr)
    (h : Handle) : clickHandlesOK (doAccess st h).tr :=
  clickOK_snoc h1 (fun _ he => Ev.noConfusion he)

lemma clickOK_doClick {σ : Type} (env : PageEnv σ) {st : St σ} {h : Handle}
    (h1 : clickHandlesOK st.tr) (hh : h.item.isDisabled = false) :
    clickHandlesOK (doClick env st h).tr :=
  clickOK_snoc h1 (fun h' he => by
    injection he with he1
    rw [← he1]
    exact hh)

lemma clickOK_wfic {σ : Type} (env : PageEnv σ) {st : St σ} {h : Handle}
    (h1 : clickHandlesOK st.tr) (hh : h.item.isDisabled = false) :
    clickHandlesOK (waitForImageChangeCheck env st h).tr :=
  clickOK_doClick env (clickOK_doAccess h1 h) hh

lemma doCollectE_ok {σ : Type} {env : PageEnv σ} {st st' : St σ}
    {m : List (String × VGroup)} (h : doCollectE env st = .ok (m, st')) :
    m = handleCollectVariants st.gen (env.sections st.pg) ∧
    st'.pg = st.pg ∧ st'.gen = st.gen + 1 ∧ st'.tr = st.tr ++ [Ev.collect st.gen] := by
  unfold doCollectE at h
  by_cases hs : env.sections st.pg = []
  · rw [if_pos hs] at h
    exact absurd h (by simp)
  · rw [if_neg hs] at h
    simp only [Except.ok.injEq, Prod.mk.injEq] at h
    obtain ⟨h1, h2⟩ := h
    refine ⟨h1.symm, ?_, ?_, ?_⟩ <;> rw [← h2]

lemma clickOK_selectSG {σ : Type} (env : PageEnv σ) {st : St σ} {sg : Option VGroup}
    (h1 : clickHandlesOK st.tr)
    (hsg : ∀ g, sg = some g → ∀ h ∈ g.items, h.item.isDisabled = false) :
    clickHandlesOK (selectCorrectSizeGroup env st sg).tr := by
  cases sg with
  | none => exact h1
  | some g =>
    simp only [selectCorrectSizeGroup]
    by_cases hi : g.items = []
    · rw [if_pos hi]
      exact h1
    · rw [if_neg hi]
      cases hf : g.items.find? (fun h => h.item.isSelected) with
      | some sel =>
        simp only [hf]
        exact clickOK_doAccess h1 sel
      | none =>
        simp only [hf]
        cases hh : g.items.head? with
        | some hd =>
          simp only [hh]
          exact clickOK_doClick env h1 (hsg g rfl hd (List.mem_of_mem_head? hh))
        | none =>
          simp only [hh]
          exact h1

lemma slaveIter_clickOK {σ : Type} (env : PageEnv σ) (skL mkL ml : String)
    (cf : Bool) (j : Nat) (h : Handle) (acc : List VData × St σ × String)
    (h1 : clickHandlesOK acc.2.1.tr) (hh : h.item.isDisabled = false) :
    clickHandlesOK (slaveIter env skL mkL ml cf j h acc).2.1.tr := by
  obtain ⟨data, st, img⟩ := acc
  simp only [slaveIter]
  by_cases hj : j = 0 <;> by_cases hc : cf = true <;>
    simp only [hj, hc, if_true, if_false, Bool.false_eq_true, if_neg, ite_true, ite_false]
  · exact clickOK_doAccess (clickOK_wfic env (clickOK_doAccess (clickOK_doAccess h1 h) h) hh) h
  · exact clickOK_doAccess (clickOK_doClick env (clickOK_doAccess (clickOK_doAccess h1 h) h) hh) h
  · exact clickOK_doAccess (clickOK_wfic env (clickOK_doAccess h1 h) hh) h
  · exact clickOK_doAccess (clickOK_doClick env (clickOK_doAccess h1 h) hh) h

lemma slaveLoop_clickOK {σ : Type} (env : PageEnv σ) (skL mkL ml : String)
    (cf : Bool) :
    ∀ (hs : List Handle) (j : Nat) (acc : List VData × St σ × String),
      clickHandlesOK acc.2.1.tr →
      (∀ h ∈ hs, h.item.isDisabled = false) →
      clickHandlesOK (slaveLoop env skL mkL ml cf hs j acc).2.1.tr := by
  intro hs
  induction hs with
  | nil => intro j acc h1 _; exact h1
  | cons h rest ih =>
    intro j acc h1 hall
    rw [slaveLoop]
    exact ih (j + 1) _
      (slaveIter_clickOK env skL mkL ml cf j h acc h1 (hall h (List.mem_cons_self _ _)))
      (fun h' hm => hall h' (List.mem_cons_of_mem _ hm))

lemma masterSelect_clickOK {σ : Type} (env : PageEnv σ) (mk : String) {st : St σ}
    {mh : Handle} (h1 : clickHandlesOK st.tr) (hmh : mh.item.isDisabled = false) :
    clickHandlesOK (masterSelect env mk st mh).tr := by
  simp only [masterSelect]
  by_cases hs : mh.item.isSelected = true
  · rw [if_pos hs]
    exact clickOK_doAccess h1 mh
  · rw [if_neg hs]
    by_cases hc : jsToLower mk = "color"
    · rw [if_pos hc]
      exact clickOK_wfic env (clickOK_doAccess h1 mh) hmh
    · rw [if_neg hc]
      exact clickOK_doClick env (clickOK_doAccess h1 mh) hmh

lemma pushMasterOnly_state {σ : Type} (env : PageEnv σ) (data : List VData)
    (st : St σ) (mkL ml img : String) :
    (pushMasterOnly env data st mkL ml img).2 = st := rfl

lemma masterIter_clickOK {σ : Type} (env : PageEnv σ) (mk : String)
    (sk? : Option String) (i : Nat) (acc out : List VData × St σ)
    (hrun : masterIter env mk sk? i acc = .ok out)
    (h1 : clickHandlesOK acc.2.tr) : clickHandlesOK out.2.tr := by
  obtain ⟨data, st⟩ := acc
  rw [masterIter] at hrun
  simp only [bind, Except.bind] at hrun
  cases hc1 : doCollectE env st with
  | error e => rw [hc1] at hrun; simp at hrun
  | ok p1 =>
    obtain ⟨cur, st1⟩ := p1
    rw [hc1] at hrun
    simp only at hrun
    obtain ⟨hm, _, _, htr⟩ := doCollectE_ok hc1
    have h2 : clickHandlesOK st1.tr := by
      rw [htr]
      exact clickOK_snoc h1 (fun _ he => Ev.noConfusion he)
    cases hlook : (jsGetG cur mk).bind (fun g => g.items.get? i) with
    | none =>
      rw [hlook] at hrun
      simp only [pure, Except.pure, Except.ok.injEq] at hrun
      rw [← hrun]
      exact h2
    | some mh =>
      rw [hlook] at hrun
      simp only at hrun
      rcases Option.bind_eq_some.mp hlook with ⟨g, hg, hmhget⟩
      have hmem : mh ∈ g.items := List.get?_mem hmhget
      have hmk_in : (mk, g) ∈ cur := jsGetG_inv hg
      rw [hm] at hmk_in
      have hfacts := handleCollectVariants_inv hmk_in
      have hmhd : mh.item.isDisabled = false := (hfacts.2 mh hmem).2.2
      have h3 : clickHandlesOK (masterSelect env mk st1 mh).tr :=
        masterSelect_clickOK env mk h2 hmhd
      cases hc2 : doCollectE env (masterSelect env mk st1 mh) with
      | error e => rw [hc2] at hrun; simp at hrun
      | ok p2 =>
        obtain ⟨cur2, st3⟩ := p2
        rw [hc2] at hrun
        simp only at hrun
        obtain ⟨hm2, _, _, htr3⟩ := doCollectE_ok hc2
        have h4 : clickHandlesOK st3.tr := by
          rw [htr3]
          exact clickOK_snoc h3 (fun _ he => Ev.noConfusion he)
        have h5 : clickHandlesOK (doAccess st3 mh).tr := clickOK_doAccess h4 mh
        cases sk? with
        | none =>
          simp only [pure, Except.pure, Except.ok.injEq] at hrun
          rw [← hrun]
          exact h5
        | some sk =>
          simp only at hrun
          cases hsg : jsGetG cur2 sk with
          | none =>
            rw [hsg] at hrun
            simp only [pure, Except.pure, Except.ok.injEq] at hrun
            rw [← hrun]
            exact h5
          | some sg =>
            rw [hsg] at hrun
            simp only at hrun
            have hsg_in : (sk, sg) ∈ cur2 := jsGetG_inv hsg
            rw [hm2] at hsg_in
            have hsgf := handleCollectVariants_inv hsg_in
            by_cases hlen : sg.items.length > 0
            · rw [if_pos hlen] at hrun
              simp only [pure, Except.pure, Except.ok.injEq] at hrun
              rw [← hrun]
              exact slaveLoop_clickOK env (jsToLower sk) (jsToLower mk) mh.item.label
                (decide (jsToLower sk = "color")) sg.items 0 _ h5
                (fun h' hm' => (hsgf.2 h' hm').2.2)
            · rw [if_neg hlen] at hrun
              simp only [pure, Except.pure, Except.ok.injEq] at hrun
              rw [← hrun]
              exact h5

lemma masterLoopGo_clickOK {σ : Type} (env : PageEnv σ) (mk : String)
    (sk? : Option String) :
    ∀ (fuel i : Nat) (acc out : List VData × St σ),
      masterLoopGo env mk sk? fuel i acc = .ok out →
      clickHandlesOK acc.2.tr → clickHandlesOK out.2.tr := by
  intro fuel
  induction fuel with
  | zero =>
    intro i acc out hrun h1
    simp only [masterLoopGo, pure, Except.pure, Except.ok.injEq] at hrun
    rw [← hrun]
    exact h1
  | succ n ih =>
    intro i acc out hrun h1
    rw [masterLoopGo] at hrun
    simp only [bind, Except.bind] at hrun
    cases hit : masterIter env mk sk? i acc with
    | error e => rw [hit] at hrun; simp at hrun
    | ok acc2 =>
      rw [hit] at hrun
      simp only at hrun
      exact ih (i + 1) acc2 out hrun (masterIter_clickOK env mk sk? i acc acc2 hit h1)

/-- C5 (amended): items whose disabled predicate holds are excluded from
the discovery result entirely (they are not reported), and consequently the
traversal never clicks a disabled item: every click event in the trace of a
successful run targets a handle whose item snapshot is enabled, so disabled
items contribute no output rows. -/
theorem C5_disabled_excluded_never_clicked :
    (∀ (gen : Nat) (sects : List Sect) (p : String × VGroup) (h : Handle),
      p ∈ handleCollectVariants gen sects → h ∈ p.2.items →
        h.item.isDisabled = false) ∧
    (∀ (σ : Type) (env : PageEnv σ) (url extraTags : String) (res : RunResult)
      (h : Handle), extractMacyProductData env url extraTags = .ok res →
        Ev.click h ∈ res.trace → h.item.isDisabled = false) := by
  constructor
  · intro gen sects p h hp hh
    exact ((handleCollectVariants_inv hp).2 h hh).2.2
  · intro σ env url extraTags res h hrun
    rw [extractMacyProductData] at hrun
    simp only [bind, Except.bind] at hrun
    cases h1 : doCollectE env ⟨env.init, 0, []⟩ with
    | error e => rw [h1] at hrun; simp at hrun
    | ok p1 =>
      obtain ⟨m1, st1⟩ := p1
      rw [h1] at hrun
      simp only at hrun
      obtain ⟨hm1, _, _, htr1⟩ := doCollectE_ok h1
      have c1 : clickHandlesOK st1.tr := by
        rw [htr1]
        exact clickOK_snoc clickOK_nil (fun _ he => Ev.noConfusion he)
      have c2 : clickHandlesOK
          (selectCorrectSizeGroup env st1 (jsGetG m1 "Size Group")).tr := by
        refine clickOK_selectSG env c1 ?_
        intro g hg h' hh'
        have := jsGetG_inv (hg ▸ rfl : jsGetG m1 "Size Group" = some g)
        rw [hm1] at this
        exact ((handleCollectVariants_inv this).2 h' hh').2.2
      cases h2 : doCollectE env (selectCorrectSizeGroup env st1 (jsGetG m1 "Size Group")) with
      | error e => rw [h2] at hrun; simp at hrun
      | ok p2 =>
        obtain ⟨m2, st3⟩ := p2
        rw [h2] at hrun
        simp only at hrun
        obtain ⟨_, _, _, htr3⟩ := doCollectE_ok h2
        have c3 : clickHandlesOK st3.tr := by
          rw [htr3]
          exact clickOK_snoc c2 (fun _ he => Ev.noConfusion he)
        cases hmk : (variantKeysOrdered m2).get? 0 with
        | none =>
          rw [hmk] at hrun
          simp only [pure, Except.pure, Except.ok.injEq] at hrun
          rw [← hrun]
          intro hclick
          exact c3 h hclick
        | some mk =>
          rw [hmk] at hrun
          simp only at hrun
          cases h3 : masterLoopGo env mk ((variantKeysOrdered m2).get? 1)
              (match jsGetG m2 mk with
                | some g => g.items.length
                | none => 0) 0 ([], st3) with
          | error e => rw [h3] at hrun; simp at hrun
          | ok p3 =>
            obtain ⟨data, stF⟩ := p3
            rw [h3] at hrun
            simp only [pure, Except.pure, Except.ok.injEq] at hrun
            rw [← hrun]
            intro hclick
            exact masterLoopGo_clickOK env mk _ _ _ ([], st3) (data, stF) h3 c3 h hclick

/-- C5 witness: the discovery-exclusion half applied at a concrete section
list and handle. -/
theorem C5_witness :
    (⟨0, "Color", 0, ⟨"A", false, false⟩⟩ : Handle).item.isDisabled = false :=
  C5_disabled_excluded_never_clicked.1 0
    [⟨some "Color", [⟨"A", false, false⟩, ⟨"B", false, true⟩]⟩]
    ("Color", ⟨[⟨0, "Color", 0, ⟨"A", false, false⟩⟩], 1⟩)
    ⟨0, "Color", 0, ⟨"A", false, false⟩⟩ (by decide) (by decide)

/-! ## Fresh-discovery discipline after primary selections

The trace is scanned left to right with a pending flag: a click on the
primary group raises it, a discovery call clears it, and touching any item
handle while it is raised is a violation (the scan returns none).  A scan
ending in some false certifies that after every primary-group selection a
fresh discovery call happens before any item handle is touched again. -/

def chkStep (mk : String) : Option Bool → Ev → Option Bool
  | none, _ => none
  | some _, Ev.collect _ => some false
  | some b, Ev.access _ => if b then none else some false
  | some b, Ev.click h => if b then none else some (decide (h.title = mk))

def chkFold (mk : String) (b : Option Bool) (es : List Ev) : Option Bool :=
  es.foldl (chkStep mk) b

def ChkOK (mk : String) (tr : List Ev) : Prop :=
  chkFold mk (some false) tr = some false

lemma chkFold_snoc (mk : String) (b : Option Bool) (tr : List Ev) (e : Ev) :
    chkFold mk b (tr ++ [e]) = chkStep mk (chkFold mk b tr) e := by
  rw [chkFold, List.foldl_append]
  rfl

lemma chk_doAccess {σ : Type} (mk : String) {st : St σ} (h1 : ChkOK mk st.tr)
    (h : Handle) : ChkOK mk (doAccess st h).tr := by
  show chkFold mk (some false) (st.tr ++ [Ev.access h]) = some false
  rw [chkFold_snoc, h1]
  rfl

lemma chk_doClick_val {σ : Type} (env : PageEnv σ) (mk : String) {st : St σ}
    (h1 : ChkOK mk st.tr) (h : Handle) :
    chkFold mk (some false) (doClick env st h).tr = some (decide (h.title = mk)) := by
  show chkFold mk (some false) (st.tr ++ [Ev.click h]) = _
  rw [chkFold_snoc, h1]
  rfl

lemma chk_doClick_ne {σ : Type} (env : PageEnv σ) (mk : String) {st : St σ}
    (h1 : ChkOK mk st.tr) {h : Handle} (hne : h.title ≠ mk) :
    ChkOK mk (doClick env st h).tr := by
  show chkFold mk (some false) (doClick env st h).tr = some false
  rw [chk_doClick_val env mk h1 h]
  simp [hne]

lemma chk_wfic_ne {σ : Type} (env : PageEnv σ) (mk : String) {st : St σ}
    (h1 : ChkOK mk st.tr) {h : Handle} (hne : h.title ≠ mk) :
    ChkOK mk (waitForImageChangeCheck env st h).tr :=
  chk_doClick_ne env mk (chk_doAccess mk h1 h) hne

lemma chk_collect_reset (mk : String) {tr : List Ev}
    (h1 : chkFold mk (some false) tr ≠ none) (g : Nat) :
    chkFold mk (some false) (tr ++ [Ev.collect g]) = some false := by
  rw [chkFold_snoc]
  cases hv : chkFold mk (some false) tr with
  | none => exact absurd hv h1
  | some b => rfl

lemma chkOK_noViol {mk : String} {tr : List Ev} (h1 : ChkOK mk tr) :
    chkFold mk (some false) tr ≠ none := by
  rw [h1]
  simp

lemma masterSelect_noViol {σ : Type} (env : PageEnv σ) (mk : String) {st : St σ}
    (h1 : ChkOK mk st.tr) (mh : Handle) :
    chkFold mk (some false) (masterSelect env mk st mh).tr ≠ none := by
  simp only [masterSelect]
  by_cases hs : mh.item.isSelected = true
  · rw [if_pos hs]
    exact chkOK_noViol (chk_doAccess mk h1 mh)
  · rw [if_neg hs]
    have h2 : ChkOK mk (doAccess st mh).tr := chk_doAccess mk h1 mh
    by_cases hc : jsToLower mk = "color"
    · rw [if_pos hc]
      show chkFold mk (some false) (doClick env (doAccess (doAccess st mh) mh) mh).tr ≠ none
      rw [chk_doClick_val env mk (chk_doAccess mk h2 mh) mh]
      simp
    · rw [if_neg hc]
      rw [chk_doClick_val env mk h2 mh]
      simp

lemma selectSG_noViol {σ : Type} (env : PageEnv σ) {st : St σ} (mk : String)
    (h1 : ChkOK mk st.tr) (sg : Option VGroup) :
    chkFold mk (some false) (selectCorrectSizeGroup env st sg).tr ≠ none := by
  cases sg with
  | none => exact chkOK_noViol h1
  | some g =>
    simp only [selectCorrectSizeGroup]
    by_cases hi : g.items = []
    · rw [if_pos hi]
      exact chkOK_noViol h1
    · rw [if_neg hi]
      cases hf : g.items.find? (fun h => h.item.isSelected) with
      | some sel =>
        simp only [hf]
        exact chkOK_noViol (chk_doAccess mk h1 sel)
      | none =>
        simp only [hf]
        cases hh : g.items.head? with
        | some hd =>
          simp only [hh]
          rw [chk_doClick_val env mk h1 hd]
          simp
        | none =>
          simp only [hh]
          exact chkOK_noViol h1

lemma slaveIter_chk {σ : Type} (env : PageEnv σ) (mk skL mkL ml : String)
    (cf : Bool) (j : Nat) {h : Handle} (acc : List VData × St σ × String)
    (h1 : ChkOK mk acc.2.1.tr) (hne : h.title ≠ mk) :
    ChkOK mk (slaveIter env skL mkL ml cf j h acc).2.1.tr := by
  obtain ⟨data, st, img⟩ := acc
  simp only [slaveIter]
  by_cases hj : j = 0 <;> by_cases hc : cf = true <;>
    simp only [hj, hc, if_true, if_false, Bool.false_eq_true, ite_true, ite_false]
  · exact chk_doAccess mk
      (chk_wfic_ne env mk (chk_doAccess mk (chk_doAccess mk h1 h) h) hne) h
  · exact chk_doAccess mk
      (chk_doClick_ne env mk (chk_doAccess mk (chk_doAccess mk h1 h) h) hne) h
  · exact chk_doAccess mk (chk_wfic_ne env mk (chk_doAccess mk h1 h) hne) h
  · exact chk_doAccess mk (chk_doClick_ne env mk (chk_doAccess mk h1 h) hne) h

lemma slaveLoop_chk {σ : Type} (env : PageEnv σ) (mk skL mkL ml : String)
    (cf : Bool) :
    ∀ (hs : List Handle) (j : Nat) (acc : List VData × St σ × String),
      ChkOK mk acc.2.1.tr → (∀ h ∈ hs, h.title ≠ mk) →
      ChkOK mk (slaveLoop env skL mkL ml cf hs j acc).2.1.tr := by
  intro hs
  induction hs with
  | nil => intro j acc h1 _; exact h1
  | cons h rest ih =>
    intro j acc h1 hall
    rw [slaveLoop]
    exact ih (j + 1) _
      (slaveIter_chk env mk skL mkL ml cf j acc h1 (hall h (List.mem_cons_self _ _)))
      (fun h' hm => hall h' (List.mem_cons_of_mem _ hm))

lemma masterIter_chk {σ : Type} (env : PageEnv σ) (mk : String)
    (sk? : Option String) (i : Nat) (acc out : List VData × St σ)
    (hrun : masterIter env mk sk? i acc = .ok out)
    (hsk : ∀ sk, sk? = some sk → sk ≠ mk)
    (h1 : ChkOK mk acc.2.tr) : ChkOK mk out.2.tr := by
  obtain ⟨data, st⟩ := acc
  rw [masterIter] at hrun
  simp only [bind, Except.bind] at hrun
  cases hc1 : doCollectE env st with
  | error e => rw [hc1] at hrun; simp at hrun
  | ok p1 =>
    obtain ⟨cur, st1⟩ := p1
    rw [hc1] at hrun
    simp only at hrun
    obtain ⟨hm, _, _, htr⟩ := doCollectE_ok hc1
    have h2 : ChkOK mk st1.tr := by
      show chkFold mk (some false) st1.tr = some false
      rw [htr]
      exact chk_collect_reset mk (chkOK_noViol h1) _
    cases hlook : (jsGetG cur mk).bind (fun g => g.items.get? i) with
    | none =>
      rw [hlook] at hrun
      simp only [pure, Except.pure, Except.ok.injEq] at hrun
      rw [← hrun]
      exact h2
    | some mh =>
      rw [hlook] at hrun
      simp only at hrun
      cases hc2 : doCollectE env (masterSelect env mk st1 mh) with
      | error e => rw [hc2] at hrun; simp at hrun
      | ok p2 =>
        obtain ⟨cur2, st3⟩ := p2
        rw [hc2] at hrun
        simp only at hrun
        obtain ⟨hm2, _, _, htr3⟩ := doCollectE_ok hc2
        have h4 : ChkOK mk st3.tr := by
          show chkFold mk (some false) st3.tr = some false
          rw [htr3]
          exact chk_collect_reset mk (masterSelect_noViol env mk h2 mh) _
        have h5 : ChkOK mk (doAccess st3 mh).tr := chk_doAccess mk h4 mh
        cases sk? with
        | none =>
          simp only [pure, Except.pure, Except.ok.injEq] at hrun
          rw [← hrun]
          exact h5
        | some sk =>
          simp only at hrun
          cases hsg : jsGetG cur2 sk with
          | none =>
            rw [hsg] at hrun
            simp only [pure, Except.pure, Except.ok.injEq] at hrun
            rw [← hrun]
            exact h5
          | some sg =>
            rw [hsg] at hrun
            simp only at hrun
            have hsg_in : (sk, sg) ∈ cur2 := jsGetG_inv hsg
            rw [hm2] at hsg_in
            have hsgf := handleCollectVariants_inv hsg_in
            by_cases hlen : sg.items.length > 0
            · rw [if_pos hlen] at hrun
              simp only [pure, Except.pure, Except.ok.injEq] at hrun
              rw [← hrun]
              refine slaveLoop_chk env mk (jsToLower sk) (jsToLower mk) mh.item.label
                (decide (jsToLower sk = "color")) sg.items 0 _ h5 ?_
              intro h' hm'
              rw [(hsgf.2 h' hm').1]
              exact hsk sk rfl
            · rw [if_neg hlen] at hrun
              simp only [pure, Except.pure, Except.ok.injEq] at hrun
              rw [← hrun]
              exact h5

lemma masterLoopGo_chk {σ : Type} (env : PageEnv σ) (mk : String)
    (sk? : Option String) (hsk : ∀ sk, sk? = some sk → sk ≠ mk) :
    ∀ (fuel i : Nat) (acc out : List VData × St σ),
      masterLoopGo env mk sk? fuel i acc = .ok out →
      ChkOK mk acc.2.tr → ChkOK mk out.2.tr := by
  intro fuel
  induction fuel with
  | zero =>
    intro i acc out hrun h1
    simp only [masterLoopGo, pure, Except.pure, Except.ok.injEq] at hrun
    rw [← hrun]
    exact h1
  | succ n ih =>
    intro i acc out hrun h1
    rw [masterLoopGo] at hrun
    simp only [bind, Except.bind] at hrun
    cases hit : masterIter env mk sk? i acc with
    | error e => rw [hit] at hrun; simp at hrun
    | ok acc2 =>
      rw [hit] at hrun
      simp only at hrun
      exact ih (i + 1) acc2 out hrun (masterIter_chk env mk sk? i acc acc2 hit hsk h1)

/-- C6 (amended): after every primary-group selection the engine performs
a fresh variant-discovery call before touching any item handle again: the
left-to-right scan of a successful run's trace, which fails (returns none)
if any handle is touched between a primary-group click and the next
discovery call, always returns some false.  The stale-handle half of the
original claim is refuted separately: the clicked item's own pre-click
handle is still reused after the click to read its label. -/
theorem C6_fresh_discovery_after_primary_selection {σ : Type} (env : PageEnv σ)
    (url extraTags : String) (res : RunResult) (mk : String)
    (hrun : extractMacyProductData env url extraTags = .ok res)
    (hmk : res.masterKey = some mk) :
    chkFold mk (some false) res.trace = some false := by
  rw [extractMacyProductData] at hrun
  simp only [bind, Except.bind] at hrun
  cases h1 : doCollectE env ⟨env.init, 0, []⟩ with
  | error e => rw [h1] at hrun; simp at hrun
  | ok p1 =>
    obtain ⟨m1, st1⟩ := p1
    rw [h1] at hrun
    simp only at hrun
    obtain ⟨hm1, _, _, htr1⟩ := doCollectE_ok h1
    have c1 : ChkOK mk st1.tr := by
      show chkFold mk (some false) st1.tr = some false
      rw [htr1]
      exact chk_collect_reset mk (by rw [show chkFold mk (some false) [] = some false from rfl]; simp) _
    have c2nv : chkFold mk (some false)
        (selectCorrectSizeGroup env st1 (jsGetG m1 "Size Group")).tr ≠ none :=
      selectSG_noViol env mk c1 _
    cases h2 : doCollectE env (selectCorrectSizeGroup env st1 (jsGetG m1 "Size Group")) with
    | error e => rw [h2] at hrun; simp at hrun
    | ok p2 =>
      obtain ⟨m2, st3⟩ := p2
      rw [h2] at hrun
      simp only at hrun
      obtain ⟨hm2, _, _, htr3⟩ := doCollectE_ok h2
      have c3 : ChkOK mk st3.tr := by
        show chkFold mk (some false) st3.tr = some false
        rw [htr3]
        exact chk_collect_reset mk c2nv _
      cases hmk0 : (variantKeysOrdered m2).get? 0 with
      | none =>
        rw [hmk0] at hrun
        simp only [pure, Except.pure, Except.ok.injEq] at hrun
        rw [← hrun] at hmk
        exact absurd hmk (by simp)
      | some mk0 =>
        rw [hmk0] at hrun
        simp only at hrun
        cases h3 : masterLoopGo env mk0 ((variantKeysOrdered m2).get? 1)
            (match jsGetG m2 mk0 with
              | some g => g.items.length
              | none => 0) 0 ([], st3) with
        | error e => rw [h3] at hrun; simp at hrun
        | ok p3 =>
          obtain ⟨data, stF⟩ := p3
          rw [h3] at hrun
          simp only [pure, Except.pure, Except.ok.injEq] at hrun
          have hmk0eq : mk0 = mk := by
            rw [← hrun] at hmk
            simpa using hmk
          subst hmk0eq
          have hnodup : (variantKeysOrdered m2).Nodup := by
            rw [hm2]
            exact variantKeysOrdered_nodup _ (handleCollectVariants_nodup_keys _ _)
          have hsk : ∀ sk, (variantKeysOrdered m2).get? 1 = some sk → sk ≠ mk0 := by
            intro sk hsk1
            exact (nodup_get?_ne hnodup hmk0 hsk1).symm
          have hfin : ChkOK mk0 stF.tr :=
            masterLoopGo_chk env mk0 _ hsk _ 0 ([], st3) (data, stF) h3 c3
          rw [← hrun]
          exact hfin

/-! ## C6 counterexample: pre-click handles are reused after the click -/

def touchesHandle (h : Handle) : Ev → Bool
  | Ev.click h2 => decide (h2 = h)
  | Ev.access h2 => decide (h2 = h)
  | Ev.collect _ => false

/-- Scans a trace for a click on a handle that is touched again (accessed
or clicked) later: any such trace reuses a handle obtained before a click
after that click. -/
def hasStaleReuse : List Ev → Bool
  | [] => false
  | Ev.click h :: es => es.any (touchesHandle h) || hasStaleReuse es
  | _ :: es => hasStaleReuse es

/-- C6 counterexample: on a concrete two-group page the trace of
extractMacyProductData clicks a handle and then touches that same pre-click
handle again afterwards (the label of the clicked item is read through the
stale handle), refuting the claim that no item handle obtained before a
click is ever reused after that click. -/
theorem C6_counterexample :
    (extractMacyProductData c2env "u" "").toOption.map
      (fun res => hasStaleReuse res.trace) = some true := by
  decide

/-- C6 witness: the fresh-discovery theorem applied to the concrete
two-group page, whose master key is "Color". -/
theorem C6_witness :
    (extractMacyProductData c2env "u" "").map
      (fun res => chkFold "Color" (some false) res.trace) = .ok (some false) := by
  have hok : (extractMacyProductData c2env "u" "").isOk = true := by decide
  have hmk : (extractMacyProductData c2env "u" "").toOption.map RunResult.masterKey =
      some (some "Color") := by decide
  cases hrun : extractMacyProductData c2env "u" "" with
  | error e =>
    rw [hrun] at hok
    simp [Except.isOk, Except.toBool] at hok
  | ok res =>
    rw [hrun] at hmk
    simp only [Except.toOption, Option.map_some'] at hmk
    have hmk2 : res.masterKey = some "Color" := by
      simpa using hmk
    simp only [Except.map]
    rw [C6_fresh_discovery_after_primary_selection c2env "u" "" res "Color" hrun hmk2]

/-! ## C1: two fully enabled variant groups with a constant secondary -/

lemma mkItems_enabled (gen : Nat) (name : String) (items : List VarItem)
    (hen : ∀ it ∈ items, it.isDisabled = false) :
    mkItems gen name items = items.enum.map (fun p => ⟨gen, name, p.1, p.2⟩) := by
  unfold mkItems
  rw [List.filter_eq_self.mpr]
  intro it hit
  simp [hen it hit]

lemma mkItems_length_enabled (gen : Nat) (name : String) (items : List VarItem)
    (hen : ∀ it ∈ items, it.isDisabled = false) :
    (mkItems gen name items).length = items.length := by
  rw [mkItems_enabled gen name items hen, List.length_map, List.enum_length]

lemma mkItems_get?_enabled (gen : Nat) (name : String) (items : List VarItem)
    (hen : ∀ it ∈ items, it.isDisabled = false) (i : Nat) :
    (mkItems gen name items).get? i =
      (items.get? i).map (fun it => ⟨gen, name, i, it⟩) := by
  rw [mkItems_enabled gen name items hen, List.get?_map, List.get?_enum]
  cases items.get? i <;> rfl

lemma collect_two (gen : Nat) (MK SK : String) (mi si : List VarItem)
    (hMKt : jsTrim MK = MK) (hSKt : jsTrim SK = SK) (hMK : MK ≠ "")
    (hSK : SK ≠ "") (hne : MK ≠ SK) :
    handleCollectVariants gen [⟨some MK, mi⟩, ⟨some SK, si⟩] =
      [(MK, ⟨mkItems gen MK mi, 1⟩), (SK, ⟨mkItems gen SK si, 2⟩)] := by
  rw [handleCollectVariants]
  rw [collectGo]
  simp only [hMKt, if_neg hMK]
  rw [collectGo]
  simp only [hSKt, if_neg hSK]
  rw [collectGo]
  simp only [jsSetG, List.any_nil, Bool.false_eq_true, if_false, List.nil_append,
    List.any_cons, decide_eq_true_eq]
  rw [if_neg (by simp [hne])]
  rfl

lemma jsGetG_two_fst (MK SK : String) (g1 g2 : VGroup) :
    jsGetG [(MK, g1), (SK, g2)] MK = some g1 := by
  simp [jsGetG, List.find?]

lemma jsGetG_two_snd (MK SK : String) (g1 g2 : VGroup) (hne : MK ≠ SK) :
    jsGetG [(MK, g1), (SK, g2)] SK = some g2 := by
  simp [jsGetG, List.find?, hne]

lemma jsGetG_two_other (MK SK k : String) (g1 g2 : VGroup)
    (h1 : MK ≠ k) (h2 : SK ≠ k) :
    jsGetG [(MK, g1), (SK, g2)] k = none := by
  simp [jsGetG, List.find?, h1, h2]

lemma variantKeysOrdered_two (MK SK : String) (g1 : VGroup) (g2 : VGroup)
    (hMKsg : MK ≠ "Size Group") (hSKsg : SK ≠ "Size Group")
    (ho : g1.order ≤ g2.order) :
    variantKeysOrdered [(MK, g1), (SK, g2)] = [MK, SK] := by
  rw [variantKeysOrdered]
  rw [List.filter_cons, List.filter_cons, List.filter_nil]
  simp only [decide_eq_true_eq]
  rw [if_pos (by simpa using hMKsg), if_pos (by simpa using hSKsg)]
  rw [sortByOrder, sortByOrder, sortByOrder, insertByOrder, insertByOrder]
  rw [if_pos ho]
  rfl

section C1Context

variable {σ : Type} (env : PageEnv σ) (MK SK : String) (mi si : List VarItem)
variable (hsec : ∀ s, env.sections s = [⟨some MK, mi⟩, ⟨some SK, si⟩])
variable (hMKt : jsTrim MK = MK) (hSKt : jsTrim SK = SK)
variable (hMK : MK ≠ "") (hSK : SK ≠ "") (hne : MK ≠ SK)
variable (hlow : jsToLower MK ≠ jsToLower SK)
variable (hmen : ∀ it ∈ mi, it.isDisabled = false)
variable (hsen : ∀ it ∈ si, it.isDisabled = false)

include hsec hMKt hSKt hMK hSK hne in
/-- The discovery result in any state of the constant two-group page. -/
lemma doCollectE_two (st : St σ) :
    doCollectE env st = .ok
      ([(MK, ⟨mkItems st.gen MK mi, 1⟩), (SK, ⟨mkItems st.gen SK si, 2⟩)],
        ⟨st.pg, st.gen + 1, st.tr ++ [Ev.collect st.gen]⟩) := by
  rw [doCollectE, if_neg (by rw [hsec]; exact List.cons_ne_nil _ _), hsec,
    collect_two st.gen MK SK mi si hMKt hSKt hMK hSK hne]

lemma slaveIter_spec (skL mkL ml : String) (cf : Bool) (j : Nat) (h : Handle)
    (data : List VData) (st : St σ) (img : String) :
    ∃ (e : VData) (st2 : St σ) (img2 : String),
      slaveIter env skL mkL ml cf j h (data, st, img) = (data ++ [e], st2, img2) ∧
      e.opts = jsSetS (jsSetS [] mkL ml) skL h.item.label := by
  simp only [slaveIter]
  by_cases hj : j = 0 <;> by_cases hc : cf = true <;>
    simp only [hj, hc, if_true, if_false, Bool.false_eq_true, ite_true, ite_false] <;>
    exact ⟨_, _, _, rfl, rfl⟩

lemma slaveLoop_spec (skL mkL ml : String) (cf : Bool) (hklow : mkL ≠ skL) :
    ∀ (hs : List Handle) (j : Nat) (data : List VData) (st : St σ) (img : String),
      ∃ (es : List VData) (st2 : St σ) (img2 : String),
        slaveLoop env skL mkL ml cf hs j (data, st, img) = (data ++ es, st2, img2) ∧
        es.map (fun v => (jsGetS v.opts mkL, jsGetS v.opts skL)) =
          hs.map (fun h => (ml, h.item.label)) := by
  intro hs
  induction hs with
  | nil =>
    intro j data st img
    exact ⟨[], st, img, by rw [slaveLoop, List.append_nil], by simp⟩
  | cons h rest ih =>
    intro j data st img
    rw [slaveLoop]
    obtain ⟨e, st', img', heq, hopts⟩ :=
      slaveIter_spec env skL mkL ml cf j h data st img
    rw [heq]
    obtain ⟨es, st2, img2, heq2, hproj⟩ := ih (j + 1) (data ++ [e]) st' img'
    refine ⟨e :: es, st2, img2, ?_, ?_⟩
    · rw [heq2, List.append_assoc]
      rfl
    · rw [List.map_cons, hproj, List.map_cons]
      have hp := slave_opts_proj mkL skL ml h.item.label hklow
      rw [hopts]
      rw [hp.1, hp.2]

include hsec hMKt hSKt hMK hSK hne hlow hmen hsen in
lemma masterIter_spec_two (hs0 : 0 < si.length) (i : Nat) (m : VarItem)
    (hm : mi.get? i = some m) (data : List VData) (st : St σ) :
    ∃ (es : List VData) (st2 : St σ),
      masterIter env MK (some SK) i (data, st) = .ok (data ++ es, st2) ∧
      es.map (fun v => (jsGetS v.opts (jsToLower MK), jsGetS v.opts (jsToLower SK))) =
        si.map (fun sIt => (m.label, sIt.label)) := by
  rw [masterIter]
  simp only [bind, Except.bind]
  rw [doCollectE_two env MK SK mi si hsec hMKt hSKt hMK hSK hne st]
  simp only
  rw [jsGetG_two_fst]
  simp only [Option.some_bind]
  rw [mkItems_get?_enabled st.gen MK mi hmen i, hm]
  simp only [Option.map_some']
  rw [doCollectE_two env MK SK mi si hsec hMKt hSKt hMK hSK hne]
  simp only
  rw [jsGetG_two_snd MK SK _ _ hne]
  simp only
  rw [if_pos (by rw [mkItems_length_enabled _ SK si hsen]; exact hs0)]
  obtain ⟨es, st2, img2, heq, hproj⟩ :=
    slaveLoop_spec env (jsToLower SK) (jsToLower MK)
      (⟨st.gen, MK, i, m⟩ : Handle).item.label
      (decide (jsToLower SK = "color")) hlow
      (mkItems _ SK si) 0 data _ _
  rw [heq]
  refine ⟨es, st2, rfl, ?_⟩
  rw [hproj, mkItems_enabled _ SK si hsen, List.map_map]
  exact enum_map_snd_comp si (fun sIt => (m.label, sIt.label))

include hsec hMKt hSKt hMK hSK hne hlow hmen hsen in
lemma masterLoopGo_spec_two (hs0 : 0 < si.length) :
    ∀ (fuel i : Nat) (data : List VData) (st : St σ), i + fuel = mi.length →
      ∃ (es : List VData) (st2 : St σ),
        masterLoopGo env MK (some SK) fuel i (data, st) = .ok (data ++ es, st2) ∧
        es.map (fun v => (jsGetS v.opts (jsToLower MK), jsGetS v.opts (jsToLower SK))) =
          (mi.drop i).flatMap (fun m => si.map (fun sIt => (m.label, sIt.label))) := by
  intro fuel
  induction fuel with
  | zero =>
    intro i data st hf
    have hi : i = mi.length := by omega
    subst hi
    refine ⟨[], st, ?_, ?_⟩
    · rw [masterLoopGo, List.append_nil]
      rfl
    · rw [List.drop_length]
      simp
  | succ n ih =>
    intro i data st hf
    have hi : i < mi.length := by omega
    have hm : mi.get? i = some (mi.get ⟨i, hi⟩) := List.get?_eq_get hi
    rw [masterLoopGo]
    simp only [bind, Except.bind]
    obtain ⟨es1, st', heq1, hproj1⟩ :=
      masterIter_spec_two env MK SK mi si hsec hMKt hSKt hMK hSK hne hlow hmen hsen
        hs0 i (mi.get ⟨i, hi⟩) hm data st
    rw [heq1]
    simp only
    obtain ⟨es2, st2, heq2, hproj2⟩ := ih (i + 1) (data ++ es1) st' (by omega)
    refine ⟨es1 ++ es2, st2, ?_, ?_⟩
    · rw [heq2, List.append_assoc]
    · rw [List.map_append, hproj1, hproj2,
        List.drop_eq_get_cons hi, List.flatMap_cons]

include hsec hMKt hSKt hMK hSK hne hlow hmen hsen in
/-- C1 (amended): on a page with two variant groups of sizes M and K, all
items enabled, the secondary group identical for every primary value,
pairwise-distinct labels inside each group, distinct lowercased group names,
and both groups non-empty, extractMacyProductData produces exactly M times K
rows and the (Option1 Value, Option2 Value) pairs of those rows are pairwise
distinct. -/
theorem C1_two_groups_product_rows (url extraTags : String)
    (hMKsg : MK ≠ "Size Group") (hSKsg : SK ≠ "Size Group")
    (hm0 : mi ≠ []) (hs0 : si ≠ [])
    (hndm : (mi.map VarItem.label).Nodup) (hnds : (si.map VarItem.label).Nodup) :
    ∃ res, extractMacyProductData env url extraTags = .ok res ∧
      res.rows.length = mi.length * si.length ∧
      (res.rows.map (fun r => (r.option1Value, r.option2Value))).Nodup := by
  have hdc1 : doCollectE env ⟨env.init, 0, []⟩ = .ok
      ([(MK, ⟨mkItems 0 MK mi, 1⟩), (SK, ⟨mkItems 0 SK si, 2⟩)],
        ⟨env.init, 1, [Ev.collect 0]⟩) :=
    doCollectE_two env MK SK mi si hsec hMKt hSKt hMK hSK hne ⟨env.init, 0, []⟩
  have hdc2 : doCollectE env ⟨env.init, 1, [Ev.collect 0]⟩ = .ok
      ([(MK, ⟨mkItems 1 MK mi, 1⟩), (SK, ⟨mkItems 1 SK si, 2⟩)],
        ⟨env.init, 2, [Ev.collect 0, Ev.collect 1]⟩) :=
    doCollectE_two env MK SK mi si hsec hMKt hSKt hMK hSK hne ⟨env.init, 1, [Ev.collect 0]⟩
  obtain ⟨es, stF, hml, hproj⟩ :=
    masterLoopGo_spec_two env MK SK mi si hsec hMKt hSKt hMK hSK hne hlow hmen hsen
      (List.length_pos.mpr hs0) mi.length 0 []
      ⟨env.init, 2, [Ev.collect 0, Ev.collect 1]⟩ (by omega)
  have hprod : es.map (fun v => (jsGetS v.opts (jsToLower MK), jsGetS v.opts (jsToLower SK))) =
      (mi.map VarItem.label) ×ˢ (si.map VarItem.label) := by
    rw [hproj, List.drop_zero]
    show _ = (mi.map VarItem.label).flatMap fun a => (si.map VarItem.label).map (Prod.mk a)
    rw [List.flatMap_map]
    refine List.flatMap_congr ?_
    intro m _
    rw [List.map_map]
    rfl
  have hlen : es.length = mi.length * si.length := by
    have h1 : (es.map (fun v =>
        (jsGetS v.opts (jsToLower MK), jsGetS v.opts (jsToLower SK)))).length = es.length :=
      List.length_map _ _
    rw [hprod] at h1
    rw [← h1, List.length_product, List.length_map, List.length_map]
  have hes : es ≠ [] := by
    refine List.ne_nil_of_length_pos ?_
    rw [hlen]
    exact Nat.mul_pos (List.length_pos.mpr hm0) (List.length_pos.mpr hs0)
  refine ⟨⟨buildRows url env.pageTitle env.descriptionHtml
      (computeTags env.breadcrumbs extraTags) (some MK) (some SK) es,
      stF.tr, some MK, some SK⟩, ?_, ?_, ?_⟩
  · rw [extractMacyProductData]
    simp only [bind, Except.bind]
    rw [hdc1]
    simp only
    rw [show jsGetG [(MK, (⟨mkItems 0 MK mi, 1⟩ : VGroup)),
        (SK, (⟨mkItems 0 SK si, 2⟩ : VGroup))] "Size Group" = none from
      jsGetG_two_other MK SK "Size Group" _ _ hMKsg hSKsg]
    rw [show selectCorrectSizeGroup env ⟨env.init, 1, [Ev.collect 0]⟩ none =
      ⟨env.init, 1, [Ev.collect 0]⟩ from rfl]
    rw [hdc2]
    simp only
    rw [variantKeysOrdered_two MK SK _ _ hMKsg hSKsg (by simp)]
    simp only [List.get?]
    rw [jsGetG_two_fst]
    simp only
    rw [mkItems_length_enabled 1 MK mi hmen]
    rw [hml]
    simp only [List.nil_append]
    rw [if_neg hes]
    rfl
  · rw [buildRows_length]
    exact hlen
  · rw [buildRows_map_pair, hprod]
    exact List.Nodup.product hndm hnds

end C1Context

/-- A two-group page satisfying every hypothesis of the original claim
(two groups, all items enabled, the secondary group identical for every
primary value, M = 2, K = 1) whose two primary items carry the same label. -/
def c1dupEnv : PageEnv Unit :=
  { c2env with
    sections := fun _ =>
      [⟨some "Color", [⟨"Black", false, false⟩, ⟨"Black", false, false⟩]⟩,
       ⟨some "Size", [⟨"7", false, false⟩]⟩] }

/-- C1 counterexample: on the duplicate-label page extractMacyProductData
produces M times K = 2 rows as the claim says, but the two
(Option1 Value, Option2 Value) pairs are both ("Black", "7"), so they are
not pairwise distinct and the claim as stated is false. -/
theorem C1_counterexample :
    (extractMacyProductData c1dupEnv "u" "").toOption.map (fun res =>
      (res.rows.length,
       decide ((res.rows.map (fun r => (r.option1Value, r.option2Value))).Nodup))) =
      some (2, false) := by
  decide

/-- C1 witness: the amended theorem applied to the concrete page with
Colors Black and White and Sizes 7 and 8, giving 4 pairwise-distinct rows. -/
theorem C1_witness :
    (extractMacyProductData c2env "u" "").toOption.map (fun res =>
      (res.rows.length,
       decide ((res.rows.map (fun r => (r.option1Value, r.option2Value))).Nodup))) =
      some (4, true) := by
  obtain ⟨res, hrun, hlen, hnd⟩ :=
    C1_two_groups_product_rows c2env "Color" "Size"
      [⟨"Black", false, false⟩, ⟨"White", false, false⟩]
      [⟨"7", false, false⟩, ⟨"8", false, false⟩]
      (fun _ => rfl) (by decide) (by decide) (by decide) (by decide) (by decide)
      (by decide) (by decide) (by decide) "u" ""
      (by decide) (by decide) (by decide) (by decide) (by decide) (by decide)
  rw [hrun]
  simp only [Except.toOption, Option.map_some']
  rw [hlen, decide_eq_true hnd]
  rfl

end Mecys
